import Mathlib

/-! # automuteus: command registry, handlers, maps and settings

A shallow embedding of `discord/commands.go`, `amongus/map.go` and
`discord/setting/settings.go`.  Go strings are Lean `String`s (sequences of
runes); Go `[]byte` values are `List UInt8`.  Process-wide variables are passed
explicitly, and calls into external collaborators (Postgres, Redis,
localisation, mention parsing, `net/url`) are fields of explicit interface
records whose invocations are recorded in a call trace.
-/

set_option linter.dupNamespace false

namespace Automuteus

/-! ## Data model -/

namespace i18n

/-- The two fields of `i18n.Message` that this code sets. -/
structure Message where
  ID : String
  Other : String
deriving DecidableEq, Repr

end i18n

/-- The Go enumeration `Type` of `commands.go` (a keyword in Lean, hence the longer name). -/
inductive CommandType where
  | CommandEnumHelp
  | CommandEnumNew
  | CommandEnumEnd
  | CommandEnumPause
  | CommandEnumRefresh
  | CommandEnumLink
  | CommandEnumUnlink
  | CommandEnumUnmuteAll
  | CommandEnumForce
  | CommandEnumSettings
  | CommandEnumMap
  | CommandEnumCache
  | CommandEnumPrivacy
  | CommandEnumInfo
  | CommandEnumDebugState
  | CommandEnumASCII
  | CommandEnumStats
  | CommandEnumWorkerBOT
deriving DecidableEq, Repr

/-- The handler a `Command.fn` field points to.  `anonymousForce` is the function
literal of the `force` entry, which returns `("", nil)`. -/
inductive HandlerFn where
  | commandFnHelp
  | commandFnNew
  | commandFnEnd
  | commandFnPause
  | commandFnRefresh
  | commandFnLink
  | commandFnUnlink
  | commandFnUnmuteAll
  | anonymousForce
  | commandFnMap
  | commandFnCache
  | commandFnPrivacy
  | commandFnSettings
  | commandFnWorkerBOT
  | commandFnStats
  | commandFnInfo
  | commandFnASCII
  | commandFnDebugState
deriving DecidableEq, Repr

/-- The Go struct `Command`.  Pointer fields are `Option`s (`nil` is `none`). -/
structure Command where
  Aliases : List String
  Command : String
  Example : String
  Emoji : String
  CommandType : CommandType
  ShortDesc : Option i18n.Message
  Description : Option i18n.Message
  Arguments : Option i18n.Message
  IsSecret : Bool
  IsAdmin : Bool
  IsOperator : Bool
  fn : Option HandlerFn
deriving DecidableEq, Repr

/-- The zero value of `Command`, which a Go map read yields for an absent key. -/
def zeroCommand : Command :=
  { Aliases := [], Command := "", Example := "", Emoji := "",
    CommandType := CommandType.CommandEnumHelp,
    ShortDesc := none, Description := none, Arguments := none,
    IsSecret := false, IsAdmin := false, IsOperator := false, fn := none }

/-! ## Go maps with string keys

A `map[string]Command` is an association list; only `mapLookup` observes it, so the
order of the bindings carries no meaning. -/

/-- The map read `m[k]` in its two-result form: the value stored under `k`, if any. -/
def mapLookup : List (String × Command) → String → Option Command
  | [], _ => none
  | (k', v) :: rest, k => if k' = k then some v else mapLookup rest k

/-- The map write `m[k] = v`: overwrite the binding of `k` or add one. -/
def mapAssign : List (String × Command) → String → Command → List (String × Command)
  | [], k, v => [(k, v)]
  | (k', v') :: rest, k, v =>
    if k' = k then (k, v) :: rest else (k', v') :: mapAssign rest k v

/-- The keys of a map. -/
def mapKeys (m : List (String × Command)) : List String := m.map Prod.fst

/-! ## strings.ToLower -/

/-- Go `strings.ToLower` on a valid UTF-8 string: every rune is mapped through
`unicode.ToLower`.  On ASCII that is `A`..`Z` to `a`..`z`; the Unicode case table
for the other runes is the parameter `lower`. -/
def toLower (lower : Char → Char) (s : String) : String :=
  String.mk (s.data.map fun c => if c.toNat < 128 then c.toLower else lower c)

/-! ## The registry -/

/-- The package-level state touched while the registry is built: the variable
`commandMap` and the lines handed to `log.Println`. -/
structure Globals where
  commandMap : List (String × Command)
  logged : List String
deriving DecidableEq, Repr

/-- The state before `init` runs: `commandMap = map[string]Command{}`, nothing logged. -/
def Globals.initial : Globals := { commandMap := [], logged := [] }

/-- The Go function `getCommand`, reading the global `commandMap`. -/
def getCommand (lower : Char → Char) (commandMap : List (String × Command))
    (arg : String) : Command × Bool :=
  let arg := toLower lower arg
  match mapLookup commandMap arg with
  | some command => (command, true)
  | none => (zeroCommand, false)

/-- The Go function `addCommand`. -/
def addCommand (command : Command) (key : String) (g : Globals) : Globals :=
  if key = "" then
    { g with logged := g.logged ++ ["Provided a blank key for command: " ++ command.Command] }
  else if (mapLookup g.commandMap key).isSome then
    { g with logged := g.logged ++ ["Conflict in keys: " ++ command.Command ++ " => " ++ key] }
  else
    { g with commandMap := mapAssign g.commandMap key command }

/-- The registration loop at the end of `init`, over an arbitrary slice of commands:
`addCommand` on the canonical name, then on each alias in order. -/
def registerAll (cmds : List Command) (g : Globals) : Globals :=
  cmds.foldl
    (fun g cmd => cmd.Aliases.foldl (fun g al => addCommand cmd al g) (addCommand cmd cmd.Command g))
    g

/-- The slice literal assigned to `allCommands` by `init`. -/
def allCommands : List Command := [
  { CommandType := CommandType.CommandEnumHelp
    Command := "help"
    Example := "help track"
    ShortDesc := some { ID := "commands.AllCommands.Help.shortDesc", Other := "Display help" }
    Description := some { ID := "commands.AllCommands.Help.desc", Other := "Display bot help message, or see info about a Command" }
    Arguments := some { ID := "commands.AllCommands.Help.args", Other := "None, or optional Command to see info for" }
    Aliases := ["h"]
    IsSecret := false
    Emoji := "❓"
    IsAdmin := false
    IsOperator := false
    fn := some HandlerFn.commandFnHelp },
  { CommandType := CommandType.CommandEnumNew
    Command := "new"
    Example := "new"
    ShortDesc := some { ID := "commands.AllCommands.New.shortDesc", Other := "Start a new game" }
    Description := some { ID := "commands.AllCommands.New.desc", Other := "Start a new game" }
    Arguments := some { ID := "commands.AllCommands.New.args", Other := "None" }
    Aliases := ["start", "n"]
    IsSecret := false
    Emoji := "🕹"
    IsAdmin := false
    IsOperator := true
    fn := some HandlerFn.commandFnNew },
  { CommandType := CommandType.CommandEnumEnd
    Command := "end"
    Example := "end"
    ShortDesc := some { ID := "commands.AllCommands.End.shortDesc", Other := "End the game" }
    Description := some { ID := "commands.AllCommands.End.desc", Other := "End the current game" }
    Arguments := some { ID := "commands.AllCommands.End.args", Other := "None" }
    Aliases := ["stop", "e"]
    IsSecret := false
    Emoji := "🛑"
    IsAdmin := false
    IsOperator := true
    fn := some HandlerFn.commandFnEnd },
  { CommandType := CommandType.CommandEnumPause
    Command := "pause"
    Example := "pause"
    ShortDesc := some { ID := "commands.AllCommands.Pause.shortDesc", Other := "Pause the bot" }
    Description := some { ID := "commands.AllCommands.Pause.desc", Other := "Pause the bot so it doesn't automute/deafen. Will unmute/undeafen all players!" }
    Arguments := some { ID := "commands.AllCommands.Pause.args", Other := "None" }
    Aliases := ["unpause", "p"]
    IsSecret := false
    Emoji := "⏸"
    IsAdmin := false
    IsOperator := true
    fn := some HandlerFn.commandFnPause },
  { CommandType := CommandType.CommandEnumRefresh
    Command := "refresh"
    Example := "refresh"
    ShortDesc := some { ID := "commands.AllCommands.Refresh.shortDesc", Other := "Refresh the bot status" }
    Description := some { ID := "commands.AllCommands.Refresh.desc", Other := "Recreate the bot status message if it ends up too far in the chat" }
    Arguments := some { ID := "commands.AllCommands.Refresh.args", Other := "None" }
    Aliases := ["reload", "ref", "rel", "r"]
    IsSecret := false
    Emoji := "♻"
    IsAdmin := false
    IsOperator := true
    fn := some HandlerFn.commandFnRefresh },
  { CommandType := CommandType.CommandEnumLink
    Command := "link"
    Example := "link @Soup red"
    ShortDesc := some { ID := "commands.AllCommands.Link.shortDesc", Other := "Link a Discord User" }
    Description := some { ID := "commands.AllCommands.Link.desc", Other := "Manually link a Discord User to their in-game color or name" }
    Arguments := some { ID := "commands.AllCommands.Link.args", Other := "<discord User> <in-game color or name>" }
    Aliases := ["l"]
    IsSecret := false
    Emoji := "🔗"
    IsAdmin := false
    IsOperator := true
    fn := some HandlerFn.commandFnLink },
  { CommandType := CommandType.CommandEnumUnlink
    Command := "unlink"
    Example := "unlink @Soup"
    ShortDesc := some { ID := "commands.AllCommands.Unlink.shortDesc", Other := "Unlink a Discord User" }
    Description := some { ID := "commands.AllCommands.Unlink.desc", Other := "Manually unlink a Discord User from their in-game player" }
    Arguments := some { ID := "commands.AllCommands.Unlink.args", Other := "<discord User>" }
    Aliases := ["un", "ul", "u"]
    IsSecret := false
    Emoji := "🚷"
    IsAdmin := false
    IsOperator := true
    fn := some HandlerFn.commandFnUnlink },
  { CommandType := CommandType.CommandEnumUnmuteAll
    Command := "unmuteall"
    Example := "unmuteall"
    ShortDesc := some { ID := "commands.AllCommands.UnmuteAll.shortDesc", Other := "Force the bot to unmute all" }
    Description := some { ID := "commands.AllCommands.UnmuteAll.desc", Other := "Force the bot to unmute all linked players" }
    Arguments := some { ID := "commands.AllCommands.UnmuteAll.args", Other := "None" }
    Aliases := ["unmute", "ua"]
    IsSecret := false
    Emoji := "🔊"
    IsAdmin := false
    IsOperator := true
    fn := some HandlerFn.commandFnUnmuteAll },
  { CommandType := CommandType.CommandEnumForce
    Command := "force"
    Example := "force task"
    ShortDesc := some { ID := "commands.AllCommands.Force.shortDesc", Other := "Force the bot to transition" }
    Description := some { ID := "commands.AllCommands.Force.desc", Other := "Force the bot to transition to another game stage, if it doesn't transition properly" }
    Arguments := some { ID := "commands.AllCommands.Force.args", Other := "<phase name> (task, discuss, or lobby / t,d, or l)" }
    Aliases := ["f"]
    IsSecret := true
    Emoji := "📢"
    IsAdmin := false
    IsOperator := true
    fn := some HandlerFn.anonymousForce },
  { CommandType := CommandType.CommandEnumMap
    Command := "map"
    Example := "map skeld"
    ShortDesc := some { ID := "commands.AllCommands.Map.shortDesc", Other := "Display an in-game map" }
    Description := some { ID := "commands.AllCommands.Map.desc", Other := "Display an image of an in-game map in the text channel. Two supported versions: simple or detailed" }
    Arguments := some { ID := "commands.AllCommands.Map.args", Other := "<map_name> (skeld, mira_hq, polus, airship) <version> (optional, simple or detailed)" }
    Aliases := []
    IsSecret := false
    Emoji := "🗺"
    IsAdmin := false
    IsOperator := false
    fn := some HandlerFn.commandFnMap },
  { CommandType := CommandType.CommandEnumCache
    Command := "cache"
    Example := "cache @Soup"
    ShortDesc := some { ID := "commands.AllCommands.Cache.shortDesc", Other := "View cached usernames" }
    Description := some { ID := "commands.AllCommands.Cache.desc", Other := "View a player's cached in-game names, and/or clear them" }
    Arguments := some { ID := "commands.AllCommands.Cache.args", Other := "<player> (optionally, \"clear\")" }
    Aliases := ["c"]
    IsSecret := false
    Emoji := "📖"
    IsAdmin := false
    IsOperator := true
    fn := some HandlerFn.commandFnCache },
  { CommandType := CommandType.CommandEnumPrivacy
    Command := "privacy"
    Example := "privacy showme"
    ShortDesc := some { ID := "commands.AllCommands.Privacy.shortDesc", Other := "View AutoMuteUs privacy information" }
    Description := some { ID := "commands.AllCommands.Privacy.desc", Other := "AutoMuteUs privacy and data collection details.\nMore details [here](https://github.com/denverquane/automuteus/blob/master/PRIVACY.md)" }
    Arguments := some { ID := "commands.AllCommands.Privacy.args", Other := "showme, optin, or optout" }
    Aliases := ["private", "priv", "gdpr"]
    IsSecret := false
    Emoji := "🔍"
    IsAdmin := false
    IsOperator := false
    fn := some HandlerFn.commandFnPrivacy },
  { CommandType := CommandType.CommandEnumSettings
    Command := "settings"
    Example := "settings commandPrefix !"
    ShortDesc := some { ID := "commands.AllCommands.Settings.shortDesc", Other := "Adjust bot settings" }
    Description := some { ID := "commands.AllCommands.Settings.desc", Other := "Adjust the bot settings. Type `\x7b\x7b.CommandPrefix\x7d\x7d settings` with no arguments to see more." }
    Arguments := some { ID := "commands.AllCommands.Settings.args", Other := "<setting> <value>" }
    Aliases := ["sett", "set", "s"]
    IsSecret := false
    Emoji := "🛠"
    IsAdmin := true
    IsOperator := true
    fn := some HandlerFn.commandFnSettings },
  { CommandType := CommandType.CommandEnumWorkerBOT
    Command := "workerbot"
    Example := "workerbot"
    ShortDesc := some { ID := "commands.AllCommands.WorkerBOT.shortDesc", Other := "Invite WORKER BOTs" }
    Description := some { ID := "commands.AllCommands.WorkerBOT.desc", Other := "Invite WORKER BOTs to speed up bot work" }
    Arguments := some { ID := "commands.AllCommands.WorkerBOT.args", Other := "None" }
    Aliases := ["add", "invite", "worker", "w"]
    IsSecret := false
    Emoji := "🤖"
    IsAdmin := false
    IsOperator := false
    fn := some HandlerFn.commandFnWorkerBOT },
  { CommandType := CommandType.CommandEnumStats
    Command := "stats"
    Example := "stats @Soup"
    ShortDesc := some { ID := "commands.AllCommands.Stats.shortDesc", Other := "View Player and Guild stats" }
    Description := some { ID := "commands.AllCommands.Stats.desc", Other := "View Player and Guild stats" }
    Arguments := some { ID := "commands.AllCommands.Stats.args", Other := "<@discord user> or \"guild\"" }
    Aliases := ["stat", "st"]
    IsSecret := false
    Emoji := "📊"
    IsAdmin := false
    IsOperator := false
    fn := some HandlerFn.commandFnStats },
  { CommandType := CommandType.CommandEnumInfo
    Command := "info"
    Example := "info"
    ShortDesc := some { ID := "commands.AllCommands.Info.shortDesc", Other := "View Bot info" }
    Description := some { ID := "commands.AllCommands.Info.desc", Other := "View info about the bot, like total guild number, active games, etc" }
    Arguments := some { ID := "commands.AllCommands.Info.args", Other := "None" }
    Aliases := ["inf", "in", "i"]
    IsSecret := false
    Emoji := "📰"
    IsAdmin := false
    IsOperator := false
    fn := some HandlerFn.commandFnInfo },
  { CommandType := CommandType.CommandEnumASCII
    Command := "ascii"
    Example := "ascii @Soup t 10"
    ShortDesc := some { ID := "commands.AllCommands.Ascii.shortDesc", Other := "Print an ASCII crewmate" }
    Description := some { ID := "commands.AllCommands.Ascii.desc", Other := "Print an ASCII crewmate" }
    Arguments := some { ID := "commands.AllCommands.Ascii.args", Other := "<@discord user> <is imposter> (true|false) <x impostor remains> (count)" }
    Aliases := ["asc"]
    IsSecret := true
    Emoji := ""
    IsAdmin := false
    IsOperator := false
    fn := some HandlerFn.commandFnASCII },
  { CommandType := CommandType.CommandEnumDebugState
    Command := "debugstate"
    Example := "debugstate"
    ShortDesc := some { ID := "commands.AllCommands.DebugState.shortDesc", Other := "View the full state of the Discord Guild Data" }
    Description := some { ID := "commands.AllCommands.DebugState.desc", Other := "View the full state of the Discord Guild Data" }
    Arguments := some { ID := "commands.AllCommands.DebugState.args", Other := "None" }
    Aliases := ["debug", "ds", "state"]
    IsSecret := true
    Emoji := ""
    IsAdmin := false
    IsOperator := true
    fn := some HandlerFn.commandFnDebugState } ]

/-- The Go function `init`: the state of the globals once it has run. -/
def init : Globals := registerAll allCommands Globals.initial

/-- Every key of a command: its canonical name followed by its aliases. -/
def commandKeys (c : Command) : List String := c.Command :: c.Aliases

/-- The keys of a slice of commands in registration order. -/
def allKeys (cmds : List Command) : List String := cmds.flatMap commandKeys

/-- Runes that `strings.ToLower` leaves alone whatever the Unicode table: ASCII other
than `A`..`Z`. -/
def lowerFixed (c : Char) : Bool := decide (c.toNat < 128) && (c.toLower == c)

/-! ## Handler context

Types of `discordgo` and of `automuteus/utils`, reduced to what the handlers below read.
Functions defined outside `commands.go` are fields of the records `GuildSettings`,
`Bot` and `Externals`. -/

/-- The fields of `discordgo.MessageEmbedField`. -/
structure MessageEmbedField where
  Name : String
  Value : String
  Inline : Bool
deriving DecidableEq, Repr

/-- The fields of `discordgo.MessageEmbed` that this repository sets (`EmbedType` is the
Go field `Type`, a keyword in Lean). -/
structure MessageEmbed where
  URL : String
  EmbedType : String
  Title : String
  Description : String
  Timestamp : String
  Color : Int
  Fields : List MessageEmbedField
deriving DecidableEq, Repr

/-- The second result of a handler, a Go `interface{}`: `nil`, a string, an embed, a
`[]string` whose elements are kept as raw bytes, or an `error` value given by its text. -/
inductive Payload where
  | nil
  | text (s : String)
  | embed (e : MessageEmbed)
  | texts (msgs : List (List UInt8))
  | error (e : String)
deriving DecidableEq, Repr

/-- The type `settings.GuildSettings`: the prefix field, the method `LocalizeMessage`,
which takes a message and optional template data, and the results of the getter methods
`GetCommandPrefix()`, `GetLanguage()` and `GetMapVersion()`. -/
structure GuildSettings where
  CommandPrefix : String
  LocalizeMessage : i18n.Message → List (String × String) → String
  GetCommandPrefix : String
  GetLanguage : String
  GetMapVersion : String

/-- The type `discordgo.MessageCreate`: `Author` is the author's ID, `none` when the
pointer is `nil`. -/
structure MessageCreate where
  GuildID : String
  ChannelID : String
  Author : Option String
deriving DecidableEq, Repr

/-- The methods of `bot.PostgresInterface` called by `commandFnStats`.  An `error` result
is `none` for `nil` and `some` of the error text otherwise. -/
structure PostgresInterface where
  GetGuildPremiumStatus : String → Int × Int
  DeleteAllGamesForServer : String → Option String
  DeleteAllGamesForUser : String → Option String

/-- The receiver `*Bot`: its Postgres interface and the embed builders defined in other
files of the package. -/
structure Bot where
  PostgresInterface : PostgresInterface
  GuildStatsEmbed : String → GuildSettings → Bool → MessageEmbed
  GameStatsEmbed : String → String → String → GuildSettings → Bool → MessageEmbed
  UserStatsEmbed : String → String → GuildSettings → Bool → MessageEmbed

/-- Functions and tables from outside `commands.go`: `discord.ExtractUserIDFromMention`
(user ID and error), `premium.IsExpired`, `MatchIDRegex.MatchString`,
`ConstructEmbedForCommand`, and the Unicode table of `strings.ToUpper`. -/
structure Externals where
  ExtractUserIDFromMention : String → String × Option String
  IsExpired : Int → Int → Bool
  MatchIDRegex : String → Bool
  ConstructEmbedForCommand : Command → GuildSettings → MessageEmbed
  upper : Char → Char

/-- A call that leaves the handler: to Postgres, or to the logger. -/
inductive Call where
  | GetGuildPremiumStatus (guildID : String)
  | DeleteAllGamesForServer (guildID : String)
  | DeleteAllGamesForUser (userID : String)
  | logPrintln (line : String)
deriving DecidableEq, Repr

/-- What a handler returns, `(string, interface{})`, with the calls it made in order. -/
structure Outcome where
  channel : String
  payload : Payload
  calls : List Call
deriving DecidableEq, Repr

/-- The deletions among a list of calls. -/
def deletions (calls : List Call) : List Call :=
  calls.filter fun c =>
    match c with
    | Call.DeleteAllGamesForServer _ => true
    | Call.DeleteAllGamesForUser _ => true
    | _ => false

/-- Go `strings.ToUpper` on a valid UTF-8 string: `a`..`z` to `A`..`Z` on ASCII, the
Unicode table `upper` elsewhere. -/
def toUpper (upper : Char → Char) (s : String) : String :=
  String.mk (s.data.map fun c => if c.toNat < 128 then c.toUpper else upper c)

/-- The call `strings.ReplaceAll(s, "\"", "")`: every double quote removed. -/
def removeQuotes (s : String) : String :=
  String.mk (s.data.filter fun c => c != '"')

/-- The test `userID == "" || err != nil` negated: the mention yields a user ID. -/
def validMention (ext : Externals) (s : String) : Bool :=
  !((ext.ExtractUserIDFromMention s).1 == "" || (ext.ExtractUserIDFromMention s).2.isSome)

/-- The test `arg == "g" || arg == "guild" || arg == "server"`. -/
def isGuildKeyword (arg : String) : Bool :=
  arg == "g" || arg == "guild" || arg == "server"

/-! ## Messages of `commandFnStats` -/

def msgResetNoPerms : i18n.Message :=
  { ID := "message_handlers.handleResetGuild.noPerms",
    Other := "Only Admins are capable of resetting server stats" }

def msgResetNoConfirm : i18n.Message :=
  { ID := "commands.StatsCommand.Reset.NoConfirm",
    Other := "Please type `\x7b\x7b.CommandPrefix\x7d\x7d stats guild reset confirm` if you are 100% certain that you wish to **completely reset** your guild's stats!" }

def msgResetSuccess : i18n.Message :=
  { ID := "commands.StatsCommand.Reset.Success",
    Other := "Successfully reset your guild's stats!" }

def msgResetUserNoConfirm : i18n.Message :=
  { ID := "commands.StatsCommand.ResetUser.NoConfirm",
    Other := "Please type `\x7b\x7b.CommandPrefix\x7d\x7d stats `\x7b\x7b.User\x7d\x7d` reset confirm` if you are 100% certain that you wish to **completely reset** that user's stats!" }

def msgResetUserSuccess : i18n.Message :=
  { ID := "commands.StatsCommand.ResetUser.Success",
    Other := "Successfully reset \x7b\x7b.User\x7d\x7d's stats!" }

/-- The Go function `commandFnStats`.  The result is `none` when the code panics, which
it does on an empty `args` (`args[1:]`). -/
def commandFnStats (ext : Externals) (bot : Bot) (isAdmin : Bool) (sett : GuildSettings)
    (message : MessageCreate) (args : List String) (cmd : Command) : Option Outcome :=
  let prem := bot.PostgresInterface.GetGuildPremiumStatus message.GuildID
  let isPrem := !ext.IsExpired prem.1 prem.2
  let premCall := Call.GetGuildPremiumStatus message.GuildID
  match args with
  | [] => none
  | [_] => some ⟨message.ChannelID, Payload.embed (ext.ConstructEmbedForCommand cmd sett), [premCall]⟩
  | _ :: arg1 :: _ =>
    let userID := (ext.ExtractUserIDFromMention arg1).1
    let err := (ext.ExtractUserIDFromMention arg1).2
    if userID == "" || err.isSome then
      let arg := removeQuotes arg1
      if arg == "g" || arg == "guild" || arg == "server" then
        if decide (args.length > 2) && args.getD 2 "" == "reset" then
          if !isAdmin then
            some ⟨message.ChannelID, Payload.text (sett.LocalizeMessage msgResetNoPerms []),
              [premCall]⟩
          else
            if args.length == 3 then
              some ⟨message.ChannelID,
                Payload.text (sett.LocalizeMessage msgResetNoConfirm
                  [("CommandPrefix", sett.CommandPrefix)]),
                [premCall]⟩
            else if args.getD 3 "" == "confirm" then
              match bot.PostgresInterface.DeleteAllGamesForServer message.GuildID with
              | some e =>
                some ⟨message.ChannelID,
                  Payload.text
                    ("Encountered the following error when deleting the server's stats: " ++ e),
                  [premCall, Call.DeleteAllGamesForServer message.GuildID]⟩
              | none =>
                some ⟨message.ChannelID, Payload.text (sett.LocalizeMessage msgResetSuccess []),
                  [premCall, Call.DeleteAllGamesForServer message.GuildID]⟩
            else
              some ⟨message.ChannelID, Payload.nil, [premCall]⟩
        else
          some ⟨message.ChannelID,
            Payload.embed (bot.GuildStatsEmbed message.GuildID sett isPrem), [premCall]⟩
      else
        let arg := toUpper ext.upper arg
        let calls := [premCall, Call.logPrintln arg]
        if ext.MatchIDRegex arg then
          let strs := arg.splitOn ":"
          if strs.length < 2 then
            some ⟨message.ChannelID,
              Payload.text "Something very wrong with the regex for match/conn codes...", calls⟩
          else
            some ⟨message.ChannelID,
              Payload.embed
                (bot.GameStatsEmbed message.GuildID (strs.getD 1 "") (strs.getD 0 "") sett isPrem),
              calls⟩
        else
          some ⟨message.ChannelID,
            Payload.text
              "I didn't recognize that user, you mistyped 'guild', or didn't provide a valid Match ID",
            calls⟩
    else
      if decide (args.length > 2) && args.getD 2 "" == "reset" then
        if !isAdmin then
          some ⟨message.ChannelID, Payload.text (sett.LocalizeMessage msgResetNoPerms []),
            [premCall]⟩
        else
          if args.length == 3 then
            some ⟨message.ChannelID,
              Payload.text (sett.LocalizeMessage msgResetUserNoConfirm
                [("CommandPrefix", sett.CommandPrefix), ("User", arg1)]),
              [premCall]⟩
          else if args.getD 3 "" == "confirm" then
            match bot.PostgresInterface.DeleteAllGamesForUser userID with
            | some e =>
              some ⟨message.ChannelID,
                Payload.text
                  ("Encountered the following error when deleting that user's stats: " ++ e),
                [premCall, Call.DeleteAllGamesForUser userID]⟩
            | none =>
              some ⟨message.ChannelID,
                Payload.text (sett.LocalizeMessage msgResetUserSuccess [("User", arg1)]),
                [premCall, Call.DeleteAllGamesForUser userID]⟩
          else
            some ⟨message.ChannelID, Payload.nil, [premCall]⟩
      else
        some ⟨message.ChannelID,
          Payload.embed (bot.UserStatsEmbed userID message.GuildID sett isPrem), [premCall]⟩

/-! ## Sample collaborators

Concrete collaborators on which the handlers can be evaluated. -/

/-- Externals in which `<@!42>` mentions user `42` and nothing else is a mention. -/
def sampleExternals : Externals :=
  { ExtractUserIDFromMention := fun s =>
      if s = "<@!42>" then ("42", none)
      else ("", some "mention does not conform to the correct format"),
    IsExpired := fun _ _ => true,
    MatchIDRegex := fun _ => false,
    ConstructEmbedForCommand := fun c _ =>
      { URL := "", EmbedType := "", Title := c.Command, Description := "", Timestamp := "",
        Color := 0, Fields := [] },
    upper := fun c => c }

/-- A bot whose deletions succeed and whose embeds carry only a title. -/
def sampleBot : Bot :=
  { PostgresInterface :=
      { GetGuildPremiumStatus := fun _ => (0, 0),
        DeleteAllGamesForServer := fun _ => none,
        DeleteAllGamesForUser := fun _ => none },
    GuildStatsEmbed := fun g _ _ =>
      { URL := "", EmbedType := "", Title := g, Description := "", Timestamp := "",
        Color := 0, Fields := [] },
    GameStatsEmbed := fun g _ _ _ _ =>
      { URL := "", EmbedType := "", Title := g, Description := "", Timestamp := "",
        Color := 0, Fields := [] },
    UserStatsEmbed := fun u _ _ _ =>
      { URL := "", EmbedType := "", Title := u, Description := "", Timestamp := "",
        Color := 0, Fields := [] } }

/-- Settings whose localisation returns the `Other` text of a message unchanged. -/
def sampleSettings : GuildSettings :=
  { CommandPrefix := ".au", LocalizeMessage := fun m _ => m.Other,
    GetCommandPrefix := ".au", GetLanguage := "en", GetMapVersion := "simple" }

/-- A message sent by user `7` in channel `c1` of guild `g1`. -/
def sampleMessage : MessageCreate :=
  { GuildID := "g1", ChannelID := "c1", Author := some "7" }

/-! ## `commandFnDebugState`

`jBytes` is a `[]byte`; the messages are Go strings kept as raw bytes, since a cut may
fall inside a multi-byte rune.  Go `int` values are `Nat`s: the indices stay below
`len(jBytes) + MaxDebugMessageSize`, far from the 64-bit bound for any slice that fits in
memory. -/

/-- The bytes of a Go string constant. -/
def utf8Bytes (s : String) : List UInt8 := s.data.flatMap String.utf8EncodeChar

/-- The slice expression `b[i:j]`; `none` is the run-time panic on bad bounds. -/
def slice (b : List UInt8) (i j : Nat) : Option (List UInt8) :=
  if i ≤ j ∧ j ≤ b.length then some ((b.drop i).take (j - i)) else none

/-- The Go call `fmt.Sprintf("```JSON\n%s\n```", seg)` on a byte slice. -/
def sprintfJSONBlock (seg : List UInt8) : List UInt8 :=
  utf8Bytes "```JSON\n" ++ seg ++ utf8Bytes "\n```"

/-- The `for` loop of `commandFnDebugState`, entered with the loop variable `i` and the
slice `msgs` built so far.  One unit of fuel is spent per evaluation of the loop
condition; `none` means that the fuel ran out or that a slice expression panicked. -/
def debugStateLoop (MaxDebugMessageSize : Nat) (jBytes : List UInt8) :
    Nat → Nat → List (List UInt8) → Option (List (List UInt8))
  | 0, _, _ => none
  | fuel + 1, i, msgs =>
    if i < jBytes.length then
      let endIdx := if i + MaxDebugMessageSize > jBytes.length then jBytes.length
        else i + MaxDebugMessageSize
      match slice jBytes i endIdx with
      | none => none
      | some seg =>
        debugStateLoop MaxDebugMessageSize jBytes fuel (i + MaxDebugMessageSize)
          (msgs ++ [sprintfJSONBlock seg])
    else some msgs

/-- The loop from `var msgs []string` and `i := 0`, with fuel for `len(jBytes) + 1`
evaluations of the loop condition. -/
def debugStateMessages (MaxDebugMessageSize : Nat) (jBytes : List UInt8) :
    Option (List (List UInt8)) :=
  debugStateLoop MaxDebugMessageSize jBytes (jBytes.length + 1) 0 []

/-- The Go struct `GameStateRequest`. -/
structure GameStateRequest where
  GuildID : String
  TextChannel : String
deriving DecidableEq, Repr

/-- The Go function `commandFnDebugState`.  `MaxDebugMessageSize` is a constant declared
in another file; `getState` is `bot.RedisInterface.GetReadOnlyDiscordGameState` and
`marshalIndent` is `json.MarshalIndent(state, "", "  ")`.  The result is `none` when the
loop yields no result. -/
def commandFnDebugState {State : Type} (MaxDebugMessageSize : Nat)
    (getState : GameStateRequest → Option State)
    (marshalIndent : State → Except String (List UInt8))
    (message : MessageCreate) : Option Outcome :=
  if message.Author.isSome then
    let gsr : GameStateRequest :=
      { GuildID := message.GuildID, TextChannel := message.ChannelID }
    match getState gsr with
    | some state =>
      match marshalIndent state with
      | Except.error err => some ⟨message.ChannelID, Payload.nil, [Call.logPrintln err]⟩
      | Except.ok jBytes =>
        match debugStateMessages MaxDebugMessageSize jBytes with
        | some msgs => some ⟨message.ChannelID, Payload.texts msgs, []⟩
        | none => none
    | none => some ⟨message.ChannelID, Payload.nil, []⟩
  else some ⟨message.ChannelID, Payload.nil, []⟩

/-! ## Session handlers: `commandFnPause`, `commandFnLink`, `commandFnUnlink`, `commandFnCache`

The game state, the lock and the guild are values of types declared outside `commands.go`:
`D` stands for the fields of the game state that the handlers do not name, `L` for
`*redislock.Lock` values other than `nil`, `G` for `*discordgo.Guild`.  A state reached
through a pointer is passed along explicitly; `linkPlayer` and `ClearPlayerData` return the
state they leave behind, and the other calls are taken to leave it as it is. -/

/-- The constant `NoLock`. -/
def NoLock : String := "Could not obtain lock"

/-- The type `DiscordGameState`: the fields that `commands.go` names, and the rest. -/
structure DiscordGameState (D : Type) where
  Running : Bool
  ConnectCode : String
  data : D
deriving DecidableEq, Repr

/-- The methods of `bot.RedisInterface` called by the session handlers.  In the result of
`GetDiscordGameStateAndLock` the lock is `none` when the Go pointer is `nil`. -/
structure RedisInterface (D L : Type) where
  GetDiscordGameStateAndLock : GameStateRequest → Option L × DiscordGameState D
  GetUsernameOrUserIDMappings : String → String → List String
  DeleteLinksByUserID : String → String → Option String

/-- The receiver `*Bot` as the session handlers use it, with the state method
`ClearPlayerData` and the functions `linkPlayer` and `gameStateResponse` of other
files. -/
structure SessionBot (D L G : Type) where
  RedisInterface : RedisInterface D L
  linkPlayer : G → DiscordGameState D → List String → DiscordGameState D
  ClearPlayerData : DiscordGameState D → String → DiscordGameState D
  gameStateResponse : DiscordGameState D → GuildSettings → MessageEmbed

/-- A call that leaves a session handler.  `logPrintln` stands for `log.Println` and
`log.Print`. -/
inductive SessionCall (D L G : Type) where
  | GetDiscordGameStateAndLock (gsr : GameStateRequest)
  | SetDiscordGameState (dgs : DiscordGameState D) (lock : L)
  | linkPlayer (guild : G) (dgs : DiscordGameState D) (args : List String)
  | ClearPlayerData (dgs : DiscordGameState D) (userID : String)
  | applyToAll (dgs : DiscordGameState D) (mute : Bool) (deafen : Bool)
  | Edit (dgs : DiscordGameState D) (embed : MessageEmbed)
  | GetUsernameOrUserIDMappings (guildID : String) (userID : String)
  | DeleteLinksByUserID (guildID : String) (userID : String)
  | logPrintln (line : String)
deriving DecidableEq, Repr

/-- What a session handler returns, with the calls it made in order. -/
structure SessionOutcome (D L G : Type) where
  channel : String
  payload : Payload
  calls : List (SessionCall D L G)
deriving DecidableEq, Repr

/-- The lock acquisitions among a list of calls. -/
def acquisitions {D L G : Type} (calls : List (SessionCall D L G)) :
    List (SessionCall D L G) :=
  calls.filter fun c =>
    match c with
    | SessionCall.GetDiscordGameStateAndLock _ => true
    | _ => false

/-- The calls that write, act on or show the session: `SetDiscordGameState`,
`linkPlayer`, `ClearPlayerData`, `applyToAll`, `Edit` and `DeleteLinksByUserID`. -/
def mutations {D L G : Type} (calls : List (SessionCall D L G)) :
    List (SessionCall D L G) :=
  calls.filter fun c =>
    match c with
    | SessionCall.SetDiscordGameState _ _ => true
    | SessionCall.linkPlayer _ _ _ => true
    | SessionCall.ClearPlayerData _ _ => true
    | SessionCall.applyToAll _ _ _ => true
    | SessionCall.Edit _ _ => true
    | SessionCall.DeleteLinksByUserID _ _ => true
    | _ => false

/-- The locks handed to `SetDiscordGameState`, in call order. -/
def handedBack {D L G : Type} (calls : List (SessionCall D L G)) : List L :=
  calls.filterMap fun c =>
    match c with
    | SessionCall.SetDiscordGameState _ lock => some lock
    | _ => none

/-- The Go function `commandFnPause`. -/
def commandFnPause {D L G : Type} (bot : SessionBot D L G) (sett : GuildSettings)
    (message : MessageCreate) : SessionOutcome D L G :=
  let gsr : GameStateRequest :=
    { GuildID := message.GuildID, TextChannel := message.ChannelID }
  let got := bot.RedisInterface.GetDiscordGameStateAndLock gsr
  match got.1 with
  | none =>
    ⟨message.ChannelID, Payload.text NoLock, [SessionCall.GetDiscordGameStateAndLock gsr]⟩
  | some lock =>
    let dgs : DiscordGameState D := { got.2 with Running := !got.2.Running }
    ⟨"", Payload.nil,
      [SessionCall.GetDiscordGameStateAndLock gsr, SessionCall.SetDiscordGameState dgs lock]
        ++ (if !dgs.Running then [SessionCall.applyToAll dgs false false] else [])
        ++ [SessionCall.Edit dgs (bot.gameStateResponse dgs sett)]⟩

/-- The Go function `commandFnLink`; `none` is the panic of `args[1:]` on an empty
`args`. -/
def commandFnLink {D L G : Type} (ext : Externals) (bot : SessionBot D L G)
    (sett : GuildSettings) (guild : G) (message : MessageCreate) (args : List String)
    (cmd : Command) : Option (SessionOutcome D L G) :=
  match args with
  | [] => none
  | _ :: _ =>
    if (args.drop 1).length < 2 then
      some ⟨message.ChannelID, Payload.embed (ext.ConstructEmbedForCommand cmd sett), []⟩
    else
      let gsr : GameStateRequest :=
        { GuildID := message.GuildID, TextChannel := message.ChannelID }
      let got := bot.RedisInterface.GetDiscordGameStateAndLock gsr
      match got.1 with
      | none =>
        some ⟨message.ChannelID, Payload.text NoLock,
          [SessionCall.GetDiscordGameStateAndLock gsr]⟩
      | some lock =>
        let dgs := bot.linkPlayer guild got.2 (args.drop 1)
        some ⟨"", Payload.nil,
          [SessionCall.GetDiscordGameStateAndLock gsr,
            SessionCall.linkPlayer guild got.2 (args.drop 1),
            SessionCall.SetDiscordGameState dgs lock,
            SessionCall.Edit dgs (bot.gameStateResponse dgs sett)]⟩

/-- The Go function `commandFnUnlink`; `none` is the panic of `args[1:]` on an empty
`args`. -/
def commandFnUnlink {D L G : Type} (ext : Externals) (bot : SessionBot D L G)
    (sett : GuildSettings) (message : MessageCreate) (args : List String) (cmd : Command) :
    Option (SessionOutcome D L G) :=
  match args with
  | [] => none
  | [_] =>
    some ⟨message.ChannelID, Payload.embed (ext.ConstructEmbedForCommand cmd sett), []⟩
  | _ :: arg1 :: _ =>
    let userID := (ext.ExtractUserIDFromMention arg1).1
    match (ext.ExtractUserIDFromMention arg1).2 with
    | some err => some ⟨"", Payload.nil, [SessionCall.logPrintln err]⟩
    | none =>
      let logged : SessionCall D L G := SessionCall.logPrintln ("Removing player " ++ userID)
      let gsr : GameStateRequest :=
        { GuildID := message.GuildID, TextChannel := message.ChannelID }
      let got := bot.RedisInterface.GetDiscordGameStateAndLock gsr
      match got.1 with
      | none =>
        some ⟨message.ChannelID, Payload.text NoLock,
          [logged, SessionCall.GetDiscordGameStateAndLock gsr]⟩
      | some lock =>
        let dgs := bot.ClearPlayerData got.2 userID
        some ⟨"", Payload.nil,
          [logged, SessionCall.GetDiscordGameStateAndLock gsr,
            SessionCall.ClearPlayerData got.2 userID,
            SessionCall.SetDiscordGameState dgs lock,
            SessionCall.Edit dgs (bot.gameStateResponse dgs sett)]⟩

def msgCacheEmptyCachedNames : i18n.Message :=
  { ID := "commands.HandleCommand.Cache.emptyCachedNames",
    Other := "I don't have any cached player names stored for that user!" }

def msgCacheCachedNames : i18n.Message :=
  { ID := "commands.HandleCommand.Cache.cachedNames",
    Other := "Cached in-game names:" }

def msgCacheSuccess : i18n.Message :=
  { ID := "commands.HandleCommand.Cache.Success",
    Other := "Successfully deleted all cached names for that user!" }

/-- The Go function `commandFnCache`; `none` is the panic of `args[1:]` on an empty
`args`.  `clearArgumentString` is a constant of another file; the keys of the map returned
by `GetUsernameOrUserIDMappings` come as a list, in the order the `range` loop visits
them. -/
def commandFnCache {D L G : Type} (lower : Char → Char) (clearArgumentString : String)
    (ext : Externals) (bot : SessionBot D L G) (sett : GuildSettings)
    (message : MessageCreate) (args : List String) (cmd : Command) :
    Option (SessionOutcome D L G) :=
  match args with
  | [] => none
  | [_] =>
    some ⟨message.ChannelID, Payload.embed (ext.ConstructEmbedForCommand cmd sett), []⟩
  | _ :: arg1 :: rest =>
    let userID := (ext.ExtractUserIDFromMention arg1).1
    match (ext.ExtractUserIDFromMention arg1).2 with
    | some err =>
      some ⟨message.ChannelID, Payload.text "I couldn't find a user by that name or ID!",
        [SessionCall.logPrintln err]⟩
    | none =>
      match rest with
      | [] =>
        let cached := bot.RedisInterface.GetUsernameOrUserIDMappings message.GuildID userID
        let calls : List (SessionCall D L G) :=
          [SessionCall.GetUsernameOrUserIDMappings message.GuildID userID]
        if cached.length == 0 then
          some ⟨message.ChannelID,
            Payload.text (sett.LocalizeMessage msgCacheEmptyCachedNames []), calls⟩
        else
          let buf := sett.LocalizeMessage msgCacheCachedNames []
          let buf := buf ++ "\n```\n"
          let buf := cached.foldl (fun buf n => buf ++ (n ++ "\n")) buf
          let buf := buf ++ "```"
          some ⟨message.ChannelID, Payload.text buf, calls⟩
      | arg2 :: _ =>
        if toLower lower arg2 == clearArgumentString || toLower lower arg2 == "c" then
          match bot.RedisInterface.DeleteLinksByUserID message.GuildID userID with
          | some err =>
            some ⟨message.ChannelID, Payload.error err,
              [SessionCall.DeleteLinksByUserID message.GuildID userID,
                SessionCall.logPrintln err]⟩
          | none =>
            some ⟨message.ChannelID, Payload.text (sett.LocalizeMessage msgCacheSuccess []),
              [SessionCall.DeleteLinksByUserID message.GuildID userID]⟩
        else some ⟨"", Payload.nil, []⟩

/-- A session bot whose lock is free (lock `1`, state not running), with no cached names
and successful deletions, on a state without further fields. -/
def sampleSessionBot : SessionBot Unit Nat Unit :=
  { RedisInterface :=
      { GetDiscordGameStateAndLock := fun _ =>
          (some 1, { Running := false, ConnectCode := "ABCDEFGH", data := () }),
        GetUsernameOrUserIDMappings := fun _ _ => [],
        DeleteLinksByUserID := fun _ _ => none },
    linkPlayer := fun _ dgs _ => dgs,
    ClearPlayerData := fun dgs _ => dgs,
    gameStateResponse := fun dgs _ =>
      { URL := "", EmbedType := "", Title := dgs.ConnectCode, Description := "",
        Timestamp := "", Color := 0, Fields := [] } }

/-- The sample session bot with the lock held by someone else. -/
def sampleLockedBot : SessionBot Unit Nat Unit :=
  { sampleSessionBot with
    RedisInterface :=
      { sampleSessionBot.RedisInterface with
        GetDiscordGameStateAndLock := fun _ =>
          (none, { Running := false, ConnectCode := "", data := () }) } }

/-! ## `amongus/map.go` and `commandFnMap` -/

/-- The Go struct `MapImage`. -/
structure MapImage where
  Simple : String
  Detailed : String
deriving DecidableEq, Repr

/-- The Go struct `MapItem`. -/
structure MapItem where
  Name : String
  MapImage : MapImage
deriving DecidableEq, Repr

/-- The functions of `net/url` called by `NewMapItem`, on a type `U` of parsed URLs:
`url.Parse`, the method `(*URL).Parse` and the method `(*URL).String`. -/
structure UrlLib (U : Type) where
  Parse : String → Except String U
  URLParse : U → String → Except String U
  URLString : U → String

/-- The first `switch` of `NewMapItem`: the canonical name of a map, `none` in the
`default` case. -/
def canonicalMapName (lower : Char → Char) (name : String) : Option String :=
  let l := toLower lower name
  if l = "the skeld" ∨ l = "the_skeld" ∨ l = "skeld" then some "the_skeld"
  else if l = "mira" ∨ l = "mira_hq" ∨ l = "mira hq" ∨ l = "mirahq" then some "mira_hq"
  else if l = "polus" then some "polus"
  else if l = "airship" ∨ l = "ship" ∨ l = "air" then some "airship"
  else none

/-- The Go function `NewMapItem`.  `getenv` is `os.Getenv`.  The outer `none` stands for
the run in which a URL fails to parse: the code logs the error and goes on to use the
`nil` URL. -/
def NewMapItem {U : Type} (lower : Char → Char) (url : UrlLib U) (getenv : String → String)
    (name : String) (sett : GuildSettings) : Option (Except String MapItem) :=
  match canonicalMapName lower name with
  | none => some (Except.error ("Invalid map name: " ++ name))
  | some name =>
    let BaseMapURL := getenv "BASE_MAP_URL"
    let BaseMapURL :=
      if BaseMapURL = "" then "https://github.com/automuteus/automuteus/blob/master/assets/maps/"
      else BaseMapURL
    let BaseMapURL := BaseMapURL ++ (sett.GetLanguage ++ "/")
    match url.Parse BaseMapURL with
    | Except.error _ => none
    | Except.ok base =>
      match url.URLParse base (name ++ ".png"), url.URLParse base (name ++ "_detailed.png") with
      | Except.ok simpleURL, Except.ok detailedURL =>
        some (Except.ok
          { Name := name,
            MapImage :=
              { Simple := url.URLString simpleURL, Detailed := url.URLString detailedURL } })
      | _, _ => none

def msgMapNotFound : i18n.Message :=
  { ID := "commands.HandleCommand.Map.notFound",
    Other := "I don't have a map by that name!" }

/-- The Go function `commandFnMap`; `none` is a panic, of `args[1:]` on an empty `args` or
inside `NewMapItem`.  `detailedMapString` is a constant of another file. -/
def commandFnMap {U : Type} (detailedMapString : String) (lower : Char → Char)
    (url : UrlLib U) (getenv : String → String) (ext : Externals) (sett : GuildSettings)
    (message : MessageCreate) (args : List String) (cmd : Command) : Option Outcome :=
  match args with
  | [] => none
  | [_] => some ⟨message.ChannelID, Payload.embed (ext.ConstructEmbedForCommand cmd sett), []⟩
  | _ :: _ :: _ =>
    let mapVersion := args.getD (args.length - 1) ""
    let parsed : String × String :=
      if mapVersion == "simple" || mapVersion == detailedMapString then
        (" ".intercalate ((args.take (args.length - 1)).drop 1), mapVersion)
      else
        (" ".intercalate (args.drop 1), sett.GetMapVersion)
    let mapName := parsed.1
    let mapVersion := parsed.2
    match NewMapItem lower url getenv mapName sett with
    | none => none
    | some (Except.error err) =>
      some ⟨message.ChannelID, Payload.text (sett.LocalizeMessage msgMapNotFound []),
        [Call.logPrintln err]⟩
    | some (Except.ok mapItem) =>
      if mapVersion == "simple" then
        some ⟨message.ChannelID, Payload.text mapItem.MapImage.Simple, []⟩
      else if mapVersion == detailedMapString then
        some ⟨message.ChannelID, Payload.text mapItem.MapImage.Detailed, []⟩
      else
        some ⟨"", Payload.nil,
          [Call.logPrintln "mapVersion has unexpected value for 'map' command"]⟩

/-- A URL library on plain strings in which resolving a reference appends it to the
base.  It agrees with `net/url` on a base that `net/url` prints back unchanged, such as
the default base with a plain language code, and a file name as reference. -/
def sampleUrlLib : UrlLib String :=
  { Parse := fun s => Except.ok s,
    URLParse := fun base ref => Except.ok (base ++ ref),
    URLString := fun u => u }

/-- A URL library on plain strings with two more behaviours of `net/url`: `url.Parse`
fails on a string with a `[` that is never closed, and it lower-cases the scheme, the
text before the first `:`.  Resolving a reference appends it to the base. -/
def sampleStrictUrlLib : UrlLib String :=
  { Parse := fun s =>
      if s.data.contains '[' && !s.data.contains ']' then
        Except.error "missing closing bracket in host"
      else if s.data.contains ':' then
        Except.ok (String.mk
          (((s.data.takeWhile fun c => c != ':').map Char.toLower)
            ++ s.data.dropWhile fun c => c != ':'))
      else Except.ok s,
    URLParse := fun base ref => Except.ok (base ++ ref),
    URLString := fun u => u }

/-! ## `discord/setting/settings.go` -/

/-- The Go enumeration `SettingType`. -/
inductive SettingType where
  | Prefix
  | Language
  | AdminUserIDs
  | RoleIDs
  | UnmuteDead
  | Delays
  | VoiceRules
  | MapVersion
  | MatchSummary
  | MatchSummaryChannel
  | AutoRefresh
  | LeaderboardMention
  | LeaderboardSize
  | LeaderboardMin
  | MuteSpectators
  | DisplayRoomCode
  | Show
  | Reset
  | NullSetting
deriving DecidableEq, Repr

/-- The Go struct `Setting`.  Pointer fields are `Option`s (`nil` is `none`). -/
structure Setting where
  SettingType : SettingType
  Name : String
  Example : String
  ShortDesc : Option i18n.Message
  Description : Option i18n.Message
  Arguments : Option i18n.Message
  Aliases : List String
  Premium : Bool
deriving DecidableEq, Repr

/-- The slice literal `AllSettings`. -/
def AllSettings : List Setting := [
  { SettingType := SettingType.Prefix
    Name := "commandPrefix"
    Example := "commandPrefix !"
    ShortDesc := some { ID := "settings.AllSettings.Prefix.shortDesc", Other := "Bot Prefix" }
    Description := some { ID := "settings.AllSettings.Prefix.desc", Other := "Change the prefix that the bot uses to detect commands" }
    Arguments := some { ID := "settings.AllSettings.Prefix.args", Other := "<prefix>" }
    Aliases := ["prefix", "pref", "cp"]
    Premium := false },
  { SettingType := SettingType.Language
    Name := "language"
    Example := "language ru"
    ShortDesc := some { ID := "settings.AllSettings.Language.shortDesc", Other := "Bot Language" }
    Description := some { ID := "settings.AllSettings.Language.desc", Other := "Change the bot messages language" }
    Arguments := some { ID := "settings.AllSettings.Language.args", Other := "<language> or reload" }
    Aliases := ["local", "lang", "l"]
    Premium := false },
  { SettingType := SettingType.AdminUserIDs
    Name := "adminUserIDs"
    Example := "adminUserIDs @Soup @Bob"
    ShortDesc := some { ID := "settings.AllSettings.AdminUserIDs.shortDesc", Other := "Bot Admins" }
    Description := some { ID := "settings.AllSettings.AdminUserIDs.desc", Other := "Specify which individual users have admin bot permissions" }
    Arguments := some { ID := "settings.AllSettings.AdminUserIDs.args", Other := "<User @ mentions>..." }
    Aliases := ["admins", "admin", "auid", "aui", "a"]
    Premium := false },
  { SettingType := SettingType.RoleIDs
    Name := "operatorRoles"
    Example := "operatorRoles @Bot Admins @Bot Mods"
    ShortDesc := some { ID := "settings.AllSettings.RoleIDs.shortDesc", Other := "Bot Operators" }
    Description := some { ID := "settings.AllSettings.RoleIDs.desc", Other := "Specify which roles have permissions to invoke the bot" }
    Arguments := some { ID := "settings.AllSettings.RoleIDs.args", Other := "<role @ mentions>..." }
    Aliases := ["operators", "operator", "oproles", "roles", "role", "ops", "op"]
    Premium := false },
  { SettingType := SettingType.UnmuteDead
    Name := "unmuteDeadDuringTasks"
    Example := "unmuteDeadDuringTasks false"
    ShortDesc := some { ID := "settings.AllSettings.UnmuteDead.shortDesc", Other := "Bot Unmutes Deaths" }
    Description := some { ID := "settings.AllSettings.UnmuteDead.desc", Other := "Specify if the bot should immediately unmute players when they die. **CAUTION. Leaks information!**" }
    Arguments := some { ID := "settings.AllSettings.UnmuteDead.args", Other := "<true/false>" }
    Aliases := ["unmutedead", "unmute", "uddt", "ud"]
    Premium := false },
  { SettingType := SettingType.Delays
    Name := "delays"
    Example := "delays lobby tasks 5"
    ShortDesc := some { ID := "settings.AllSettings.Delays.shortDesc", Other := "Delays Between Stages" }
    Description := some { ID := "settings.AllSettings.Delays.desc", Other := "Specify the delays for automute/deafen between stages of the game, like lobby->tasks" }
    Arguments := some { ID := "settings.AllSettings.Delays.args", Other := "<start phase> <end phase> <delay>" }
    Aliases := ["delays", "d"]
    Premium := false },
  { SettingType := SettingType.VoiceRules
    Name := "voiceRules"
    Example := "voiceRules mute tasks dead true"
    ShortDesc := some { ID := "settings.AllSettings.VoiceRules.shortDesc", Other := "Mute/deafen Rules" }
    Description := some { ID := "settings.AllSettings.VoiceRules.desc", Other := "Specify mute/deafen rules for the game, depending on the stage and the alive/deadness of players. Example given would mute dead players during the tasks stage" }
    Arguments := some { ID := "settings.AllSettings.VoiceRules.args", Other := "<mute/deaf> <game phase> <dead/alive> <true/false>" }
    Aliases := ["voice", "vr"]
    Premium := false },
  { SettingType := SettingType.MapVersion
    Name := "mapVersion"
    Example := "mapVersion detailed"
    ShortDesc := some { ID := "settings.AllSettings.MapVersion.shortDesc", Other := "Map version" }
    Description := some { ID := "settings.AllSettings.MapVersion.desc", Other := "Specify the default map version (simple, detailed) used by 'map' command" }
    Arguments := some { ID := "settings.AllSettings.MapVersion.args", Other := "<version>" }
    Aliases := ["map"]
    Premium := false },
  { SettingType := SettingType.MatchSummary
    Name := "matchSummary"
    Example := "matchSummary 5"
    ShortDesc := some { ID := "settings.AllSettings.MatchSummary.shortDesc", Other := "Match Summary Message" }
    Description := some { ID := "settings.AllSettings.MatchSummary.desc", Other := "Specify minutes before the match summary message is deleted. 0 for instant deletion, -1 for never delete" }
    Arguments := some { ID := "settings.AllSettings.MatchSummary.args", Other := "<minutes>" }
    Aliases := ["matchsumm", "matchsum", "summary", "match", "summ", "sum"]
    Premium := true },
  { SettingType := SettingType.MatchSummaryChannel
    Name := "matchSummaryChannel"
    Example := "matchSummaryChannel general"
    ShortDesc := some { ID := "settings.AllSettings.MatchSummaryChannel.shortDesc", Other := "Channel for Match Summaries" }
    Description := some { ID := "settings.AllSettings.MatchSummaryChannel.desc", Other := "Specify the text channel name where Match Summaries should be posted. Use `#general`, for example" }
    Arguments := some { ID := "settings.AllSettings.MatchSummaryChannel.args", Other := "<text channel mention>" }
    Aliases := ["matchsummchan", "matchsumchan", "summarychannel", "matchchannel", "summchan", "sumchan"]
    Premium := true },
  { SettingType := SettingType.AutoRefresh
    Name := "autoRefresh"
    Example := "autoRefresh true"
    ShortDesc := some { ID := "settings.AllSettings.AutoRefresh.shortDesc", Other := "Autorefresh Status Message" }
    Description := some { ID := "settings.AllSettings.AutoRefresh.desc", Other := "Specify if the bot should auto-refresh the status message after a match ends" }
    Arguments := some { ID := "settings.AllSettings.AutoRefresh.args", Other := "<true/false>" }
    Aliases := ["refresh", "auto", "ar"]
    Premium := true },
  { SettingType := SettingType.LeaderboardMention
    Name := "leaderboardMention"
    Example := "leaderboardMention true"
    ShortDesc := some { ID := "settings.AllSettings.LeaderboardMention.shortDesc", Other := "Player Leaderboard Mention Format" }
    Description := some { ID := "settings.AllSettings.LeaderboardMention.desc", Other := "If players should be mentioned with @ on the leaderboard.\n**Disable this for large servers!**" }
    Arguments := some { ID := "settings.AllSettings.LeaderboardMention.args", Other := "<true/false>" }
    Aliases := ["lboardmention", "leadermention", "mention", "ment"]
    Premium := true },
  { SettingType := SettingType.LeaderboardSize
    Name := "leaderboardSize"
    Example := "leaderboardSize 5"
    ShortDesc := some { ID := "settings.AllSettings.LeaderboardSize.shortDesc", Other := "Player Leaderboard Size" }
    Description := some { ID := "settings.AllSettings.LeaderboardSize.desc", Other := "Specify the size of the player leaderboard" }
    Arguments := some { ID := "settings.AllSettings.LeaderboardSize.args", Other := "<number>" }
    Aliases := ["lboardsize", "boardsize", "leadersize", "size"]
    Premium := true },
  { SettingType := SettingType.LeaderboardMin
    Name := "leaderboardMin"
    Example := "leaderboardMin 3"
    ShortDesc := some { ID := "settings.AllSettings.LeaderboardMin.shortDesc", Other := "Minimum Games for Leaderboard" }
    Description := some { ID := "settings.AllSettings.LeaderboardMin.desc", Other := "Minimum amount of games before a player is displayed on the leaderboard" }
    Arguments := some { ID := "settings.AllSettings.LeaderboardMin.args", Other := "<number>" }
    Aliases := ["leaderboardmin", "lboardmin", "boardmin", "leadermin", "min"]
    Premium := true },
  { SettingType := SettingType.MuteSpectators
    Name := "muteSpectators"
    Example := "muteSpectators true"
    ShortDesc := some { ID := "settings.AllSettings.MuteSpectators.shortDesc", Other := "Mute Spectators like Dead Players" }
    Description := some { ID := "settings.AllSettings.MuteSpectators.desc", Other := "Whether or not the bot should treat spectators like dead players (respecting your voice rules).\n**Note, this can cause delays or slowdowns when not self-hosting, or using a Premium worker bot!**" }
    Arguments := some { ID := "settings.AllSettings.MuteSpectators.args", Other := "<true/false>" }
    Aliases := ["mutespectator", "mutespec", "spectators", "spectator", "spec"]
    Premium := true },
  { SettingType := SettingType.DisplayRoomCode
    Name := "displayRoomCode"
    Example := "displayRoomCode spoiler"
    ShortDesc := some { ID := "settings.AllSettings.DisplayRoomCode.shortDesc", Other := "Visibility for the ROOM CODE" }
    Description := some { ID := "settings.AllSettings.DisplayRoomCode.desc", Other := "Specify the visibility (always, spoiler, never) for the ROOM CODE in the message" }
    Arguments := some { ID := "settings.AllSettings.DisplayRoomCode.args", Other := "<always/spoiler/never>" }
    Aliases := ["displayRoomCode", "roomcode", "code", "rc"]
    Premium := true },
  { SettingType := SettingType.Show
    Name := "show"
    Example := "show"
    ShortDesc := some { ID := "settings.AllSettings.Show.shortDesc", Other := "Show All Settings" }
    Description := some { ID := "settings.AllSettings.Show.desc", Other := "Show all the Bot settings for this server" }
    Arguments := some { ID := "settings.AllSettings.Show.args", Other := "None" }
    Aliases := ["sh", "s"]
    Premium := false },
  { SettingType := SettingType.Reset
    Name := "reset"
    Example := "reset"
    ShortDesc := some { ID := "settings.AllSettings.Reset.shortDesc", Other := "Reset Bot Settings" }
    Description := some { ID := "settings.AllSettings.Reset.desc", Other := "Reset all bot settings to their default values" }
    Arguments := some { ID := "settings.AllSettings.Reset.args", Other := "None" }
    Aliases := []
    Premium := false } ]

/-- Every key of a setting: its canonical name followed by its aliases. -/
def settingKeys (s : Setting) : List String := s.Name :: s.Aliases

/-- The keys of a slice of settings, entry by entry. -/
def allSettingKeys (settings : List Setting) : List String := settings.flatMap settingKeys

/-- ASCII lower-casing, which is `strings.ToLower` on a string of ASCII runes. -/
def asciiLower (s : String) : String := String.mk (s.data.map Char.toLower)

def msgSettingStarterDesc : i18n.Message :=
  { ID := "settings.ConstructEmbedForSetting.StarterDesc",
    Other := "Type `\x7b\x7b.CommandPrefix\x7d\x7d settings \x7b\x7b.Command\x7d\x7d` to change this setting.\n\n" }

def msgSettingCurrentValue : i18n.Message :=
  { ID := "settings.ConstructEmbedForSetting.Fields.CurrentValue", Other := "Current Value" }

def msgSettingExample : i18n.Message :=
  { ID := "settings.ConstructEmbedForSetting.Fields.Example", Other := "Example" }

def msgSettingArguments : i18n.Message :=
  { ID := "settings.ConstructEmbedForSetting.Fields.Arguments", Other := "Arguments" }

def msgSettingAliases : i18n.Message :=
  { ID := "settings.ConstructEmbedForSetting.Fields.Aliases", Other := "Aliases" }

set_option linter.unusedVariables false in
/-- The Go function `ConstructEmbedForSetting`.  The local variable `title` is assigned as
in the source and, as in the source, not read afterwards.  The result is `none` when
`Description` or `Arguments` is a `nil` pointer, a case `LocalizeMessage` is not modelled
for. -/
def ConstructEmbedForSetting (value : String) (setting : Setting) (sett : GuildSettings) :
    Option MessageEmbed :=
  let title := setting.Name
  let title := if setting.Premium then "💎 " ++ title else title
  let value := if value = "" then "null" else value
  let desc := sett.LocalizeMessage msgSettingStarterDesc
    [("CommandPrefix", sett.GetCommandPrefix), ("Command", setting.Name)]
  match setting.Description, setting.Arguments with
  | some description, some arguments =>
    some
      { URL := "",
        EmbedType := "",
        Title := setting.Name,
        Description := desc ++ sett.LocalizeMessage description [],
        Timestamp := "",
        Color := 15844367,
        Fields :=
          [ { Name := sett.LocalizeMessage msgSettingCurrentValue [],
              Value := value,
              Inline := false },
            { Name := sett.LocalizeMessage msgSettingExample [],
              Value := "`" ++ setting.Example ++ "`",
              Inline := false },
            { Name := sett.LocalizeMessage msgSettingArguments [],
              Value := "`" ++ sett.LocalizeMessage arguments [] ++ "`",
              Inline := false },
            { Name := sett.LocalizeMessage msgSettingAliases [],
              Value := ", ".intercalate setting.Aliases,
              Inline := false } ] }
  | _, _ => none

/-! ## The permission gate

The function that checks a caller against a command lives in a file of the package other
than `commands.go`; only the flags it reads are declared here, in `Command`. -/

/-- Modelled from the spec: the tiers of `requiredTier` (§3: none, operator, admin). -/
inductive Tier where
  | none
  | operator
  | admin
deriving DecidableEq, Repr

/-- Modelled from the spec: the `requiredTier` of an entry (§3), which the spec gives as
one value and `Command` as the two flags `IsAdmin` and `IsOperator`; an entry with
`IsAdmin` set requires the admin tier, one with only `IsOperator` set the operator tier,
and one with neither flag no tier. -/
def requiredTier (entry : Command) : Tier :=
  if entry.IsAdmin then Tier.admin
  else if entry.IsOperator then Tier.operator
  else Tier.none

/-- Modelled from the spec: the permission gate `authorize(entry, callerIsAdmin,
callerIsPermissioned)` of §4.3, which is not in `commands.go`.  Its rule table allows tier
none always, tier operator when `callerIsPermissioned` is true and tier admin when
`callerIsAdmin` is true. -/
def authorize (entry : Command) (callerIsAdmin callerIsPermissioned : Bool) : Bool :=
  match requiredTier entry with
  | Tier.none => true
  | Tier.operator => callerIsPermissioned
  | Tier.admin => callerIsAdmin

/-- The states handed to `SetDiscordGameState`, in call order. -/
def writtenBack {D L G : Type} (calls : List (SessionCall D L G)) :
    List (DiscordGameState D) :=
  calls.filterMap fun c =>
    match c with
    | SessionCall.SetDiscordGameState dgs _ => some dgs
    | _ => none

/-- The calls to `applyToAll` among a list of calls. -/
def applyToAllCalls {D L G : Type} (calls : List (SessionCall D L G)) :
    List (SessionCall D L G) :=
  calls.filter fun c =>
    match c with
    | SessionCall.applyToAll _ _ _ => true
    | _ => false

/-! ## Lemmas on maps -/

theorem mapLookup_isSome_iff (m : List (String × Command)) (k : String) :
    (mapLookup m k).isSome = true ↔ k ∈ mapKeys m := by
  induction m with
  | nil => simp [mapLookup, mapKeys]
  | cons p rest ih =>
    obtain ⟨k', v⟩ := p
    by_cases h : k' = k
    · simp [mapLookup, mapKeys, h]
    · have h' : ¬ k = k' := fun e => h e.symm
      simpa [mapLookup, mapKeys, h, h'] using ih

theorem mapLookup_eq_none_iff (m : List (String × Command)) (k : String) :
    mapLookup m k = none ↔ k ∉ mapKeys m := by
  rw [← mapLookup_isSome_iff]
  cases mapLookup m k <;> simp

theorem mapLookup_mem (m : List (String × Command)) (k : String) (c : Command)
    (h : mapLookup m k = some c) : (k, c) ∈ m := by
  induction m with
  | nil => simp [mapLookup] at h
  | cons p rest ih =>
    obtain ⟨k', v⟩ := p
    by_cases hk : k' = k
    · simp [mapLookup, hk] at h
      simp [hk, h]
    · simp [mapLookup, hk] at h
      exact List.mem_cons_of_mem _ (ih h)

theorem mapLookup_mapAssign (m : List (String × Command)) (k k' : String) (v : Command) :
    mapLookup (mapAssign m k v) k' = if k' = k then some v else mapLookup m k' := by
  induction m with
  | nil =>
    by_cases h : k' = k
    · simp [mapAssign, mapLookup, h]
    · have h' : ¬ k = k' := fun e => h e.symm
      simp [mapAssign, mapLookup, h, h']
  | cons p rest ih =>
    obtain ⟨k0, v0⟩ := p
    by_cases h0 : k0 = k
    · subst h0
      by_cases h : k' = k0
      · simp [mapAssign, mapLookup, h]
      · have h' : ¬ k0 = k' := fun e => h e.symm
        simp [mapAssign, mapLookup, h, h']
    · by_cases h1 : k0 = k'
      · subst h1
        simp [mapAssign, mapLookup, h0]
      · simp [mapAssign, mapLookup, h0, h1, ih]

theorem mapAssign_of_absent (m : List (String × Command)) (k : String) (v : Command)
    (h : mapLookup m k = none) : mapAssign m k v = m ++ [(k, v)] := by
  induction m with
  | nil => rfl
  | cons p rest ih =>
    obtain ⟨k0, v0⟩ := p
    by_cases h0 : k0 = k
    · simp [mapLookup, h0] at h
    · simp [mapLookup, h0] at h
      simp [mapAssign, h0, ih h]

/-! ## Lemmas on registration -/

theorem addCommand_commandMap (c : Command) (k : String) (g : Globals) :
    (addCommand c k g).commandMap =
      if k = "" ∨ k ∈ mapKeys g.commandMap then g.commandMap else g.commandMap ++ [(k, c)] := by
  unfold addCommand
  by_cases hk : k = ""
  · simp [hk]
  · by_cases hp : k ∈ mapKeys g.commandMap
    · have := (mapLookup_isSome_iff g.commandMap k).2 hp
      simp [hk, hp, this]
    · have hn := (mapLookup_eq_none_iff g.commandMap k).2 hp
      simp [hk, hp, hn, mapAssign_of_absent]

theorem mapLookup_append_single (m : List (String × Command)) (k k' : String) (v : Command) :
    mapLookup (m ++ [(k, v)]) k' =
      match mapLookup m k' with
      | some c => some c
      | none => if k' = k then some v else none := by
  induction m with
  | nil =>
    by_cases h : k = k'
    · simp [mapLookup, h]
    · have h' : ¬ k' = k := fun e => h e.symm
      simp [mapLookup, h, h']
  | cons p rest ih =>
    obtain ⟨k0, v0⟩ := p
    by_cases h0 : k0 = k'
    · simp [mapLookup, h0]
    · simp [mapLookup, h0, ih]

/-- The bindings a key list adds for one command. -/
theorem mapLookup_registerKeys (c : Command) (ks : List String) (g : Globals) (k : String) :
    mapLookup (ks.foldl (fun g al => addCommand c al g) g).commandMap k =
      match mapLookup g.commandMap k with
      | some d => some d
      | none => if k ≠ "" ∧ k ∈ ks then some c else none := by
  induction ks generalizing g with
  | nil =>
    rw [List.foldl_nil]
    cases mapLookup g.commandMap k <;> simp
  | cons a rest ih =>
    rw [List.foldl_cons, ih, addCommand_commandMap]
    by_cases ha : a = "" ∨ a ∈ mapKeys g.commandMap
    · rw [if_pos ha]
      cases hl : mapLookup g.commandMap k with
      | some d => rfl
      | none =>
        have hk : k ∉ mapKeys g.commandMap := (mapLookup_eq_none_iff _ _).1 hl
        have hne : ¬ (k ≠ "" ∧ k = a) := by
          rintro ⟨h1, h2⟩
          subst h2
          rcases ha with ha | ha
          · exact h1 ha
          · exact hk ha
        by_cases hr : k ≠ "" ∧ k ∈ rest
        · have : k ≠ "" ∧ k ∈ a :: rest := ⟨hr.1, List.mem_cons_of_mem _ hr.2⟩
          simp only [if_pos hr, if_pos this]
        · have : ¬ (k ≠ "" ∧ k ∈ a :: rest) := by
            rintro ⟨h1, h2⟩
            rcases List.mem_cons.1 h2 with h2 | h2
            · exact hne ⟨h1, h2⟩
            · exact hr ⟨h1, h2⟩
          simp only [if_neg hr, if_neg this]
    · rw [if_neg ha, mapLookup_append_single]
      have ha1 : a ≠ "" := fun e => ha (Or.inl e)
      cases hl : mapLookup g.commandMap k with
      | some d => rfl
      | none =>
        by_cases hka : k = a
        · subst hka
          simp [ha1]
        · by_cases hr : k ≠ "" ∧ k ∈ rest
          · have : k ≠ "" ∧ k ∈ a :: rest := ⟨hr.1, List.mem_cons_of_mem _ hr.2⟩
            simp only [if_neg hka, if_pos hr, if_pos this]
          · have : ¬ (k ≠ "" ∧ k ∈ a :: rest) := by
              rintro ⟨h1, h2⟩
              rcases List.mem_cons.1 h2 with h2 | h2
              · exact hka h2
              · exact hr ⟨h1, h2⟩
            simp only [if_neg hka, if_neg hr, if_neg this]

theorem registerAll_cons (cmd : Command) (cmds : List Command) (g : Globals) :
    registerAll (cmd :: cmds) g =
      registerAll cmds ((commandKeys cmd).foldl (fun g al => addCommand cmd al g) g) := rfl

/-- The owner of `k` among `defs`: the first definition having `k` as name or alias. -/
theorem mapLookup_registerAll (defs : List Command) (g : Globals) (k : String) :
    mapLookup (registerAll defs g).commandMap k =
      match mapLookup g.commandMap k with
      | some d => some d
      | none =>
        if k = "" then none
        else defs.find? (fun d => decide (k = d.Command ∨ k ∈ d.Aliases)) := by
  induction defs generalizing g with
  | nil =>
    show mapLookup g.commandMap k = _
    cases mapLookup g.commandMap k <;> simp
  | cons cmd cmds ih =>
    rw [registerAll_cons, ih, mapLookup_registerKeys]
    cases hl : mapLookup g.commandMap k with
    | some d => rfl
    | none =>
      by_cases hk : k = ""
      · simp [hk]
      · by_cases hm : k = cmd.Command ∨ k ∈ cmd.Aliases
        · have : k ≠ "" ∧ k ∈ commandKeys cmd := ⟨hk, by simpa [commandKeys] using hm⟩
          rw [if_pos this, List.find?_cons, decide_eq_true hm]
          simp [hk]
        · have : ¬ (k ≠ "" ∧ k ∈ commandKeys cmd) := by
            rintro ⟨_, h2⟩
            exact hm (by simpa [commandKeys] using h2)
          rw [if_neg this, List.find?_cons, decide_eq_false hm]

theorem mapKeys_addCommand_nodup (c : Command) (k : String) (g : Globals)
    (h : (mapKeys g.commandMap).Nodup) : (mapKeys (addCommand c k g).commandMap).Nodup := by
  rw [addCommand_commandMap]
  by_cases hk : k = "" ∨ k ∈ mapKeys g.commandMap
  · rw [if_pos hk]; exact h
  · rw [if_neg hk]
    have hk' : k ∉ mapKeys g.commandMap := fun e => hk (Or.inr e)
    simp only [mapKeys, List.map_append, List.map_cons, List.map_nil]
    refine List.Nodup.append h (List.nodup_singleton k) ?_
    intro x hx hx'
    rw [List.mem_singleton] at hx'
    subst hx'
    exact hk' hx

theorem mapKeys_registerKeys_nodup (c : Command) (ks : List String) (g : Globals)
    (h : (mapKeys g.commandMap).Nodup) :
    (mapKeys (ks.foldl (fun g al => addCommand c al g) g).commandMap).Nodup := by
  induction ks generalizing g with
  | nil => exact h
  | cons a rest ih => exact ih _ (mapKeys_addCommand_nodup c a g h)

theorem mapKeys_registerAll_nodup (defs : List Command) (g : Globals)
    (h : (mapKeys g.commandMap).Nodup) : (mapKeys (registerAll defs g).commandMap).Nodup := by
  induction defs generalizing g with
  | nil => exact h
  | cons cmd cmds ih =>
    rw [registerAll_cons]
    exact ih _ (mapKeys_registerKeys_nodup cmd _ g h)

theorem mapLookup_registerAll_initial (defs : List Command) (k : String) :
    mapLookup (registerAll defs Globals.initial).commandMap k =
      if k = "" then none
      else defs.find? (fun d => decide (k = d.Command ∨ k ∈ d.Aliases)) := by
  rw [mapLookup_registerAll]
  rfl

theorem mem_allKeys (defs : List Command) (k : String) :
    k ∈ allKeys defs ↔ ∃ d ∈ defs, k ∈ commandKeys d := by
  simp [allKeys, List.mem_flatMap]

/-- Every key of a built registry is a non-empty key of some definition. -/
theorem mem_mapKeys_registerAll (defs : List Command) (k : String)
    (h : k ∈ mapKeys (registerAll defs Globals.initial).commandMap) :
    k ≠ "" ∧ k ∈ allKeys defs := by
  have h1 := (mapLookup_isSome_iff _ _).2 h
  rw [mapLookup_registerAll_initial] at h1
  by_cases hk : k = ""
  · simp [hk] at h1
  · refine ⟨hk, ?_⟩
    rw [if_neg hk] at h1
    obtain ⟨d, hd⟩ := Option.isSome_iff_exists.1 h1
    have hmem := List.mem_of_find?_eq_some hd
    have hp := List.find?_some hd
    rw [mem_allKeys]
    refine ⟨d, hmem, ?_⟩
    simpa [commandKeys] using hp

/-- With pairwise distinct keys, each key is owned by the definition that lists it. -/
theorem find?_owner (defs : List Command) (h : (allKeys defs).Nodup) (c : Command)
    (hc : c ∈ defs) (k : String) (hk : k ∈ commandKeys c) :
    defs.find? (fun d => decide (k = d.Command ∨ k ∈ d.Aliases)) = some c := by
  induction defs with
  | nil => simp at hc
  | cons d rest ih =>
    have hsplit : allKeys (d :: rest) = commandKeys d ++ allKeys rest := by
      simp [allKeys]
    rw [hsplit] at h
    rcases List.mem_cons.1 hc with hcd | hcr
    · subst hcd
      have : k = c.Command ∨ k ∈ c.Aliases := by simpa [commandKeys] using hk
      rw [List.find?_cons, decide_eq_true this]
    · have hkr : k ∈ allKeys rest := (mem_allKeys rest k).2 ⟨c, hcr, hk⟩
      have hnd : ¬ (k = d.Command ∨ k ∈ d.Aliases) := by
        intro hd
        have hkd : k ∈ commandKeys d := by simpa [commandKeys] using hd
        exact (List.nodup_append.1 h).2.2 hkd hkr
      rw [List.find?_cons, decide_eq_false hnd]
      exact ih (List.nodup_append.1 h).2.1 hcr

/-! ## Lemmas on lower-casing -/

theorem toLower_of_lowerFixed (lower : Char → Char) (s : String)
    (h : s.data.all lowerFixed = true) : toLower lower s = s := by
  obtain ⟨l⟩ := s
  simp only [toLower]
  congr 1
  simp only [List.all_eq_true] at h
  conv_rhs => rw [← List.map_id l]
  apply List.map_congr_left
  intro c hc
  have := h c hc
  simp only [lowerFixed, Bool.and_eq_true, decide_eq_true_eq, beq_iff_eq] at this
  simp [this.1, this.2]

theorem allKeys_allCommands_lowerFixed :
    ∀ k ∈ allKeys allCommands, k.data.all lowerFixed = true := by decide

theorem getCommand_eq (lower : Char → Char) (m : List (String × Command)) (t : String) :
    getCommand lower m t =
      match mapLookup m (toLower lower t) with
      | some command => (command, true)
      | none => (zeroCommand, false) := rfl

/-! ## The shipped registry -/

set_option maxRecDepth 100000 in
theorem init_lookup_hel : mapLookup init.commandMap "hel" = none := by decide

set_option maxRecDepth 100000 in
theorem init_lookup_helpp : mapLookup init.commandMap "helpp" = none := by decide

set_option maxRecDepth 100000 in
theorem init_logged : init.logged = [] := by decide

set_option maxRecDepth 100000 in
theorem init_mapKeys : mapKeys init.commandMap = allKeys allCommands := by decide

theorem allKeys_allCommands_nodup : (allKeys allCommands).Nodup := by decide

theorem allKeys_allCommands_nonempty : "" ∉ allKeys allCommands := by decide

/-! ## Claims on the registry -/

/-- C1: registry construction is first-registrant-wins.  After the registration loop of
`init` has run over any list of definitions from the empty registry, a key `k` is bound
exactly when it is non-empty and some definition has it as name or alias, and it is then
bound to the first such definition in list order (`List.find?`); no other key is present.
For `link` with alias `l` followed by `log` with alias `l`, the key `l` is bound to `link`
and the second registration of `l` is logged as a conflict. -/
theorem registry_first_registrant_wins (defs : List Command) (k : String) :
    mapLookup (registerAll defs Globals.initial).commandMap k =
        (if k = "" then none
         else defs.find? (fun d => decide (k = d.Command ∨ k ∈ d.Aliases)))
    ∧ mapLookup (registerAll
          [{ zeroCommand with Command := "link", Aliases := ["l"] },
           { zeroCommand with Command := "log", Aliases := ["l"] }]
          Globals.initial).commandMap "l"
        = some { zeroCommand with Command := "link", Aliases := ["l"] }
    ∧ (registerAll
          [{ zeroCommand with Command := "link", Aliases := ["l"] },
           { zeroCommand with Command := "log", Aliases := ["l"] }]
          Globals.initial).logged = ["Conflict in keys: log => l"] := by
  exact ⟨mapLookup_registerAll_initial defs k, by decide, by decide⟩

/-- C2: a rejected registration leaves the registry unchanged.  If the key is empty or
already bound, `addCommand` returns the map as it was; otherwise the map gains the single
binding of the key to the command, and every other key reads as before. -/
theorem addCommand_rejected_or_added (g : Globals) (c : Command) (k : String) :
    (addCommand c k g).commandMap =
        (if k = "" ∨ k ∈ mapKeys g.commandMap then g.commandMap
         else g.commandMap ++ [(k, c)])
    ∧ ∀ k', mapLookup (addCommand c k g).commandMap k' =
        (if k = "" ∨ k ∈ mapKeys g.commandMap then mapLookup g.commandMap k'
         else if k' = k then some c else mapLookup g.commandMap k') := by
  refine ⟨addCommand_commandMap c k g, fun k' => ?_⟩
  rw [addCommand_commandMap]
  by_cases h : k = "" ∨ k ∈ mapKeys g.commandMap
  · rw [if_pos h, if_pos h]
  · rw [if_neg h, if_neg h, mapLookup_append_single]
    by_cases hk : k' = k
    · subst hk
      have hn : mapLookup g.commandMap k' = none :=
        (mapLookup_eq_none_iff _ _).2 (fun e => h (Or.inr e))
      rw [hn]
    · rw [if_neg hk]
      cases mapLookup g.commandMap k' <;> simp [hk]

/-- C3: resolution is case-insensitive exact match.  `getCommand` reports found exactly
when the lower-cased token is a key of the registry, and then returns the entry stored
under that key; tokens with the same lower-cased form resolve identically; in the shipped
registry the tokens `hel` and `helpp` are not found. -/
theorem getCommand_exact_lowercase_match (lower : Char → Char)
    (m : List (String × Command)) (t : String) :
    (getCommand lower m t).2 = decide (toLower lower t ∈ mapKeys m)
    ∧ ((getCommand lower m t).2 = true →
        mapLookup m (toLower lower t) = some (getCommand lower m t).1
        ∧ (toLower lower t, (getCommand lower m t).1) ∈ m)
    ∧ (∀ t', toLower lower t' = toLower lower t →
        getCommand lower m t' = getCommand lower m t)
    ∧ getCommand lower init.commandMap "hel" = (zeroCommand, false)
    ∧ getCommand lower init.commandMap "helpp" = (zeroCommand, false) := by
  refine ⟨?_, ?_, ?_, ?_, ?_⟩
  · rw [getCommand_eq]
    cases h : mapLookup m (toLower lower t) with
    | none =>
      have := (mapLookup_eq_none_iff _ _).1 h
      simp [this]
    | some c =>
      have := (mapLookup_isSome_iff m (toLower lower t)).1 (by rw [h]; rfl)
      simp [this]
  · rw [getCommand_eq]
    cases h : mapLookup m (toLower lower t) with
    | none => simp
    | some c => exact fun _ => ⟨rfl, mapLookup_mem m _ c h⟩
  · intro t' ht
    rw [getCommand_eq, getCommand_eq, ht]
  · have h1 : toLower lower "hel" = "hel" := rfl
    rw [getCommand_eq, h1, init_lookup_hel]
  · have h1 : toLower lower "helpp" = "helpp" := rfl
    rw [getCommand_eq, h1, init_lookup_helpp]

/-- Witness of C3 on the shipped registry: `HELP` and `help` resolve identically. -/
theorem getCommand_exact_lowercase_match_witness :
    getCommand (fun c => c) init.commandMap "HELP"
      = getCommand (fun c => c) init.commandMap "help" :=
  (getCommand_exact_lowercase_match (fun c => c) init.commandMap "help").2.2.1 "HELP" rfl

/-- C4: in the shipped registry every key of every command, written in any letter case,
resolves to that command; no key belongs to two commands (the keys are pairwise distinct),
so building the registry logs no conflict and the registry has exactly one key per name
and alias. -/
theorem shipped_registry_resolves (lower : Char → Char) :
    (∀ c ∈ allCommands, ∀ k ∈ commandKeys c, ∀ t, toLower lower t = toLower lower k →
        getCommand lower init.commandMap t = (c, true))
    ∧ (∀ c1 ∈ allCommands, ∀ c2 ∈ allCommands, ∀ k,
        k ∈ commandKeys c1 → k ∈ commandKeys c2 → c1 = c2)
    ∧ (allKeys allCommands).Nodup
    ∧ init.logged = []
    ∧ mapKeys init.commandMap = allKeys allCommands
    ∧ init.commandMap.length = (allKeys allCommands).length := by
  have hown : ∀ c ∈ allCommands, ∀ k ∈ commandKeys c,
      mapLookup init.commandMap k = some c := by
    intro c hc k hk
    have hk0 : k ≠ "" := by
      intro e
      subst e
      exact allKeys_allCommands_nonempty ((mem_allKeys _ _).2 ⟨c, hc, hk⟩)
    show mapLookup (registerAll allCommands Globals.initial).commandMap k = some c
    rw [mapLookup_registerAll_initial, if_neg hk0,
      find?_owner allCommands allKeys_allCommands_nodup c hc k hk]
  refine ⟨?_, ?_, allKeys_allCommands_nodup, init_logged, init_mapKeys, ?_⟩
  · intro c hc k hk t ht
    have hfix : toLower lower k = k :=
      toLower_of_lowerFixed lower k
        (allKeys_allCommands_lowerFixed k ((mem_allKeys _ _).2 ⟨c, hc, hk⟩))
    rw [getCommand_eq, ht, hfix, hown c hc k hk]
  · intro c1 h1 c2 h2 k hk1 hk2
    have e1 := hown c1 h1 k hk1
    have e2 := hown c2 h2 k hk2
    rw [e1] at e2
    exact Option.some.inj e2
  · have h := congrArg List.length init_mapKeys
    rw [mapKeys, List.length_map] at h
    exact h

/-- Witness of C4: the token `L` resolves to the `link` entry of `allCommands`. -/
theorem shipped_registry_resolves_witness :
    ∃ c ∈ allCommands, c.Command = "link"
      ∧ getCommand (fun ch => ch) init.commandMap "L" = (c, true) :=
  ⟨allCommands.get ⟨5, by decide⟩, List.get_mem _ _ _, rfl,
    (shipped_registry_resolves (fun ch => ch)).1 _ (List.get_mem _ _ _) "l"
      (by decide) "L" rfl⟩

/-- C5, as stated, fails: `addCommand` compares keys exactly.  With `Link` bound, the key
`link` (equal to it ignoring case) is accepted; a registry built from one definition named
`Link` with alias `link` holds both keys; and the accepted key `Link` of a definition
without aliases is not resolvable, since `getCommand` looks up `link`. -/
theorem addCommand_case_insensitive_counterexample :
    toLower (fun ch => ch) "Link" = toLower (fun ch => ch) "link"
    ∧ (addCommand zeroCommand "link"
          { commandMap := [("Link", zeroCommand)], logged := [] }).commandMap
        = [("Link", zeroCommand), ("link", zeroCommand)]
    ∧ mapKeys (registerAll [{ zeroCommand with Command := "Link", Aliases := ["link"] }]
          Globals.initial).commandMap = ["Link", "link"]
    ∧ mapKeys (registerAll [{ zeroCommand with Command := "Link" }]
          Globals.initial).commandMap = ["Link"]
    ∧ getCommand (fun ch => ch)
          (registerAll [{ zeroCommand with Command := "Link" }] Globals.initial).commandMap
          "Link" = (zeroCommand, false) := by
  refine ⟨rfl, by decide, by decide, by decide, ?_⟩
  rw [getCommand_eq]
  have h1 : toLower (fun ch => ch) "Link" = "link" := rfl
  rw [h1]
  rfl

/-- C5, amended: key uniqueness at build time is exact.  A key already bound is rejected
and the registry is unchanged; a built registry never holds the same key twice; and when
every key of the definitions is its own lower-cased form, the built registry holds no two
distinct keys that are equal ignoring case, and every accepted key, written in any letter
case, is resolvable by `getCommand`. -/
theorem addCommand_exact_key_uniqueness (lower : Char → Char) (g : Globals) (c : Command)
    (k : String) (defs : List Command) :
    (k ∈ mapKeys g.commandMap → (addCommand c k g).commandMap = g.commandMap)
    ∧ (mapKeys (registerAll defs Globals.initial).commandMap).Nodup
    ∧ ((∀ k ∈ allKeys defs, toLower lower k = k) →
        (∀ k1 ∈ mapKeys (registerAll defs Globals.initial).commandMap,
          ∀ k2 ∈ mapKeys (registerAll defs Globals.initial).commandMap,
            toLower lower k1 = toLower lower k2 → k1 = k2)
        ∧ (∀ k ∈ mapKeys (registerAll defs Globals.initial).commandMap, ∀ t,
            toLower lower t = toLower lower k →
              (getCommand lower (registerAll defs Globals.initial).commandMap t).2 = true)) := by
  refine ⟨fun hk => ?_, ?_, fun hlow => ⟨?_, ?_⟩⟩
  · rw [addCommand_commandMap, if_pos (Or.inr hk)]
  · exact mapKeys_registerAll_nodup defs Globals.initial List.nodup_nil
  · intro k1 h1 k2 h2 e
    rw [hlow k1 (mem_mapKeys_registerAll defs k1 h1).2,
      hlow k2 (mem_mapKeys_registerAll defs k2 h2).2] at e
    exact e
  · intro k' hk' t ht
    rw [hlow k' (mem_mapKeys_registerAll defs k' hk').2] at ht
    rw [getCommand_eq, ht]
    have := (mapLookup_isSome_iff _ _).2 hk'
    obtain ⟨d, hd⟩ := Option.isSome_iff_exists.1 this
    rw [hd]

/-- Witness of C5 (amended) on the shipped commands: re-adding `link` changes nothing,
and the token `LINK` is resolvable. -/
theorem addCommand_exact_key_uniqueness_witness :
    (addCommand zeroCommand "link" init).commandMap = init.commandMap
    ∧ (getCommand (fun ch => ch) init.commandMap "LINK").2 = true :=
  have hmem : "link" ∈ mapKeys init.commandMap := by rw [init_mapKeys]; decide
  ⟨(addCommand_exact_key_uniqueness (fun ch => ch) init zeroCommand "link" allCommands).1
      hmem,
    ((addCommand_exact_key_uniqueness (fun ch => ch) init zeroCommand "link" allCommands).2.2
      (fun k hk => toLower_of_lowerFixed _ k (allKeys_allCommands_lowerFixed k hk))).2
      "link" hmem "LINK" rfl⟩

/-! ## Claims on `commandFnStats` -/

theorem commandFnStats_guild_reset (ext : Externals) (bot : Bot) (isAdmin : Bool)
    (sett : GuildSettings) (message : MessageCreate) (cmd : Command) (a0 a1 : String)
    (rest : List String) (hv : validMention ext a1 = false)
    (hg : isGuildKeyword (removeQuotes a1) = true) :
    commandFnStats ext bot isAdmin sett message (a0 :: a1 :: "reset" :: rest) cmd =
      if !isAdmin then
        some ⟨message.ChannelID, Payload.text (sett.LocalizeMessage msgResetNoPerms []),
          [Call.GetGuildPremiumStatus message.GuildID]⟩
      else
        match rest with
        | [] =>
          some ⟨message.ChannelID,
            Payload.text (sett.LocalizeMessage msgResetNoConfirm
              [("CommandPrefix", sett.CommandPrefix)]),
            [Call.GetGuildPremiumStatus message.GuildID]⟩
        | a3 :: _ =>
          if a3 = "confirm" then
            match bot.PostgresInterface.DeleteAllGamesForServer message.GuildID with
            | some e =>
              some ⟨message.ChannelID,
                Payload.text
                  ("Encountered the following error when deleting the server's stats: " ++ e),
                [Call.GetGuildPremiumStatus message.GuildID,
                  Call.DeleteAllGamesForServer message.GuildID]⟩
            | none =>
              some ⟨message.ChannelID, Payload.text (sett.LocalizeMessage msgResetSuccess []),
                [Call.GetGuildPremiumStatus message.GuildID,
                  Call.DeleteAllGamesForServer message.GuildID]⟩
          else
            some ⟨message.ChannelID, Payload.nil,
              [Call.GetGuildPremiumStatus message.GuildID]⟩ := by
  simp only [validMention, Bool.not_eq_false'] at hv
  simp only [isGuildKeyword] at hg
  cases rest with
  | nil => cases isAdmin <;> simp [commandFnStats, hv, hg]
  | cons a3 rest' =>
    cases isAdmin
    · simp [commandFnStats, hv, hg]
    · by_cases h3 : a3 = "confirm"
      · subst h3
        cases hd : bot.PostgresInterface.DeleteAllGamesForServer message.GuildID <;>
          simp [commandFnStats, hv, hg, hd]
      · simp [commandFnStats, hv, hg, h3]

theorem commandFnStats_user_reset (ext : Externals) (bot : Bot) (isAdmin : Bool)
    (sett : GuildSettings) (message : MessageCreate) (cmd : Command) (a0 a1 : String)
    (rest : List String) (hv : validMention ext a1 = true) :
    commandFnStats ext bot isAdmin sett message (a0 :: a1 :: "reset" :: rest) cmd =
      if !isAdmin then
        some ⟨message.ChannelID, Payload.text (sett.LocalizeMessage msgResetNoPerms []),
          [Call.GetGuildPremiumStatus message.GuildID]⟩
      else
        match rest with
        | [] =>
          some ⟨message.ChannelID,
            Payload.text (sett.LocalizeMessage msgResetUserNoConfirm
              [("CommandPrefix", sett.CommandPrefix), ("User", a1)]),
            [Call.GetGuildPremiumStatus message.GuildID]⟩
        | a3 :: _ =>
          if a3 = "confirm" then
            match bot.PostgresInterface.DeleteAllGamesForUser
                (ext.ExtractUserIDFromMention a1).1 with
            | some e =>
              some ⟨message.ChannelID,
                Payload.text
                  ("Encountered the following error when deleting that user's stats: " ++ e),
                [Call.GetGuildPremiumStatus message.GuildID,
                  Call.DeleteAllGamesForUser (ext.ExtractUserIDFromMention a1).1]⟩
            | none =>
              some ⟨message.ChannelID,
                Payload.text (sett.LocalizeMessage msgResetUserSuccess [("User", a1)]),
                [Call.GetGuildPremiumStatus message.GuildID,
                  Call.DeleteAllGamesForUser (ext.ExtractUserIDFromMention a1).1]⟩
          else
            some ⟨message.ChannelID, Payload.nil,
              [Call.GetGuildPremiumStatus message.GuildID]⟩ := by
  simp only [validMention, Bool.not_eq_true'] at hv
  cases rest with
  | nil => cases isAdmin <;> simp [commandFnStats, hv]
  | cons a3 rest' =>
    cases isAdmin
    · simp [commandFnStats, hv]
    · by_cases h3 : a3 = "confirm"
      · subst h3
        cases hd : bot.PostgresInterface.DeleteAllGamesForUser
            (ext.ExtractUserIDFromMention a1).1 <;>
          simp [commandFnStats, hv, hd]
      · simp [commandFnStats, hv, h3]

/-- C6, as stated, fails: the code tests the fourth token, not the last one.  For an
admin, `stats g reset confirm now` ends in `now` and still deletes the guild's games, and
`stats g reset now` returns the `nil` payload instead of the prompt. -/
theorem stats_reset_last_token_counterexample :
    commandFnStats sampleExternals sampleBot true sampleSettings sampleMessage
        ["stats", "g", "reset", "confirm", "now"] zeroCommand
      = some ⟨"c1", Payload.text "Successfully reset your guild's stats!",
          [Call.GetGuildPremiumStatus "g1", Call.DeleteAllGamesForServer "g1"]⟩
    ∧ commandFnStats sampleExternals sampleBot true sampleSettings sampleMessage
        ["stats", "g", "reset", "now"] zeroCommand
      = some ⟨"c1", Payload.nil, [Call.GetGuildPremiumStatus "g1"]⟩ := by
  exact ⟨by decide, by decide⟩

/-- C6, amended: for an admin caller and an argument list whose target is a guild keyword
or a valid user mention and whose third token is `reset`, if the fourth token is absent or
is not the literal `confirm` then `commandFnStats` performs no deletion; and when the list
has exactly three tokens it returns the confirmation-required prompt (the guild or the
user variant) to the issuing channel. -/
theorem stats_reset_needs_confirm (ext : Externals) (bot : Bot) (sett : GuildSettings)
    (message : MessageCreate) (cmd : Command) (a0 a1 : String) (rest : List String)
    (htarget : validMention ext a1 = true ∨ isGuildKeyword (removeQuotes a1) = true) :
    (rest.head? ≠ some "confirm" →
      ∃ out, commandFnStats ext bot true sett message (a0 :: a1 :: "reset" :: rest) cmd
          = some out
        ∧ out.channel = message.ChannelID
        ∧ deletions out.calls = [])
    ∧ ∃ out, commandFnStats ext bot true sett message [a0, a1, "reset"] cmd = some out
        ∧ out.channel = message.ChannelID
        ∧ out.calls = [Call.GetGuildPremiumStatus message.GuildID]
        ∧ out.payload = Payload.text
            (if validMention ext a1 = true then
              sett.LocalizeMessage msgResetUserNoConfirm
                [("CommandPrefix", sett.CommandPrefix), ("User", a1)]
            else
              sett.LocalizeMessage msgResetNoConfirm
                [("CommandPrefix", sett.CommandPrefix)]) := by
  by_cases hv : validMention ext a1 = true
  · refine ⟨fun hrest => ?_, ?_⟩
    · rw [commandFnStats_user_reset ext bot true sett message cmd a0 a1 rest hv]
      cases rest with
      | nil => exact ⟨_, rfl, rfl, rfl⟩
      | cons a3 rest' =>
        have h3 : ¬ a3 = "confirm" := fun e => hrest (by rw [e]; rfl)
        simp only [Bool.not_true, if_neg h3]
        exact ⟨_, rfl, rfl, rfl⟩
    · rw [commandFnStats_user_reset ext bot true sett message cmd a0 a1 [] hv, if_pos hv]
      exact ⟨_, rfl, rfl, rfl, rfl⟩
  · have hg : isGuildKeyword (removeQuotes a1) = true := by
      rcases htarget with h | h
      · exact absurd h hv
      · exact h
    have hv' : validMention ext a1 = false := by simpa using hv
    refine ⟨fun hrest => ?_, ?_⟩
    · rw [commandFnStats_guild_reset ext bot true sett message cmd a0 a1 rest hv' hg]
      cases rest with
      | nil => exact ⟨_, rfl, rfl, rfl⟩
      | cons a3 rest' =>
        have h3 : ¬ a3 = "confirm" := fun e => hrest (by rw [e]; rfl)
        simp only [Bool.not_true, if_neg h3]
        exact ⟨_, rfl, rfl, rfl⟩
    · rw [commandFnStats_guild_reset ext bot true sett message cmd a0 a1 [] hv' hg, if_neg hv]
      exact ⟨_, rfl, rfl, rfl, rfl⟩

/-- Witness of C6 (amended): an admin typing `stats guild reset now` deletes nothing. -/
theorem stats_reset_needs_confirm_witness :
    ∃ out, commandFnStats sampleExternals sampleBot true sampleSettings sampleMessage
        ["stats", "guild", "reset", "now"] zeroCommand = some out
      ∧ out.channel = sampleMessage.ChannelID
      ∧ deletions out.calls = [] :=
  (stats_reset_needs_confirm sampleExternals sampleBot sampleSettings sampleMessage
    zeroCommand "stats" "guild" ["now"] (Or.inr (by decide))).1 (by decide)

/-- C7, as stated, fails: `stats g reset now confirm` has `reset` third and `confirm`
last, and an admin issuing it deletes nothing; nor is anything deleted when the target is
neither a guild keyword nor a mention. -/
theorem stats_reset_confirm_position_counterexample :
    commandFnStats sampleExternals sampleBot true sampleSettings sampleMessage
        ["stats", "g", "reset", "now", "confirm"] zeroCommand
      = some ⟨"c1", Payload.nil, [Call.GetGuildPremiumStatus "g1"]⟩
    ∧ commandFnStats sampleExternals sampleBot true sampleSettings sampleMessage
        ["stats", "nobody", "reset", "confirm"] zeroCommand
      = some ⟨"c1",
          Payload.text
            "I didn't recognize that user, you mistyped 'guild', or didn't provide a valid Match ID",
          [Call.GetGuildPremiumStatus "g1", Call.logPrintln "NOBODY"]⟩ := by
  exact ⟨by decide, by decide⟩

/-- C7, amended: for an admin caller and an argument list whose third token is `reset`,
whose fourth token is the literal `confirm` and whose target is a guild keyword or a valid
user mention, `commandFnStats` invokes exactly one deletion: `DeleteAllGamesForServer` on
the message's guild when the target is a guild keyword (and not a mention),
`DeleteAllGamesForUser` on the mentioned user when it is a mention, never both.  On success
it returns the success message, on a deletion error a message ending in that error. -/
theorem stats_reset_confirmed_once (ext : Externals) (bot : Bot) (sett : GuildSettings)
    (message : MessageCreate) (cmd : Command) (a0 a1 : String) (rest : List String) :
    (validMention ext a1 = false → isGuildKeyword (removeQuotes a1) = true →
      ∃ out, commandFnStats ext bot true sett message
            (a0 :: a1 :: "reset" :: "confirm" :: rest) cmd = some out
        ∧ out.channel = message.ChannelID
        ∧ deletions out.calls = [Call.DeleteAllGamesForServer message.GuildID]
        ∧ out.payload =
            match bot.PostgresInterface.DeleteAllGamesForServer message.GuildID with
            | none => Payload.text (sett.LocalizeMessage msgResetSuccess [])
            | some e =>
              Payload.text
                ("Encountered the following error when deleting the server's stats: " ++ e))
    ∧ (validMention ext a1 = true →
      ∃ out, commandFnStats ext bot true sett message
            (a0 :: a1 :: "reset" :: "confirm" :: rest) cmd = some out
        ∧ out.channel = message.ChannelID
        ∧ deletions out.calls
            = [Call.DeleteAllGamesForUser (ext.ExtractUserIDFromMention a1).1]
        ∧ out.payload =
            match bot.PostgresInterface.DeleteAllGamesForUser
                (ext.ExtractUserIDFromMention a1).1 with
            | none => Payload.text (sett.LocalizeMessage msgResetUserSuccess [("User", a1)])
            | some e =>
              Payload.text
                ("Encountered the following error when deleting that user's stats: " ++ e)) := by
  refine ⟨fun hv hg => ?_, fun hv => ?_⟩
  · rw [commandFnStats_guild_reset ext bot true sett message cmd a0 a1 _ hv hg]
    simp only [Bool.not_true, if_pos]
    cases bot.PostgresInterface.DeleteAllGamesForServer message.GuildID <;>
      exact ⟨_, rfl, rfl, rfl, rfl⟩
  · rw [commandFnStats_user_reset ext bot true sett message cmd a0 a1 _ hv]
    simp only [Bool.not_true, if_pos]
    cases bot.PostgresInterface.DeleteAllGamesForUser (ext.ExtractUserIDFromMention a1).1 <;>
      exact ⟨_, rfl, rfl, rfl, rfl⟩

/-- Witness of C7 (amended): an admin typing `stats <@!42> reset confirm` deletes the games
of user `42` and of nobody else. -/
theorem stats_reset_confirmed_once_witness :
    ∃ out, commandFnStats sampleExternals sampleBot true sampleSettings sampleMessage
        ["stats", "<@!42>", "reset", "confirm"] zeroCommand = some out
      ∧ out.channel = sampleMessage.ChannelID
      ∧ deletions out.calls = [Call.DeleteAllGamesForUser "42"]
      ∧ out.payload = Payload.text "Successfully reset \x7b\x7b.User\x7d\x7d's stats!" :=
  (stats_reset_confirmed_once sampleExternals sampleBot sampleSettings sampleMessage
    zeroCommand "stats" "<@!42>" []).2 (by decide)

/-- C8: reset is admin-only and the denial is visible.  For a caller who is not an admin
and an argument list of at least three tokens whose third token is `reset` and whose
target is a guild keyword or a valid user mention, whatever follows, `commandFnStats`
performs no deletion and returns, to the channel the command was issued in, the localised
message whose text is "Only Admins are capable of resetting server stats". -/
theorem stats_reset_admin_only (ext : Externals) (bot : Bot) (sett : GuildSettings)
    (message : MessageCreate) (cmd : Command) (a0 a1 : String) (rest : List String)
    (htarget : validMention ext a1 = true ∨ isGuildKeyword (removeQuotes a1) = true) :
    ∃ out, commandFnStats ext bot false sett message (a0 :: a1 :: "reset" :: rest) cmd
        = some out
      ∧ out.channel = message.ChannelID
      ∧ out.payload = Payload.text (sett.LocalizeMessage msgResetNoPerms [])
      ∧ out.calls = [Call.GetGuildPremiumStatus message.GuildID]
      ∧ deletions out.calls = []
      ∧ msgResetNoPerms.Other = "Only Admins are capable of resetting server stats" := by
  by_cases hv : validMention ext a1 = true
  · rw [commandFnStats_user_reset ext bot false sett message cmd a0 a1 rest hv]
    exact ⟨_, rfl, rfl, rfl, rfl, rfl, rfl⟩
  · have hg : isGuildKeyword (removeQuotes a1) = true := by
      rcases htarget with h | h
      · exact absurd h hv
      · exact h
    have hv' : validMention ext a1 = false := by simpa using hv
    rw [commandFnStats_guild_reset ext bot false sett message cmd a0 a1 rest hv' hg]
    exact ⟨_, rfl, rfl, rfl, rfl, rfl, rfl⟩

/-- Witness of C8: a non-admin typing `stats "server" reset confirm` is refused. -/
theorem stats_reset_admin_only_witness :
    ∃ out, commandFnStats sampleExternals sampleBot false sampleSettings sampleMessage
        ["stats", "\"server\"", "reset", "confirm"] zeroCommand = some out
      ∧ out.channel = sampleMessage.ChannelID
      ∧ out.payload = Payload.text (sampleSettings.LocalizeMessage msgResetNoPerms [])
      ∧ out.calls = [Call.GetGuildPremiumStatus sampleMessage.GuildID]
      ∧ deletions out.calls = []
      ∧ msgResetNoPerms.Other = "Only Admins are capable of resetting server stats" :=
  stats_reset_admin_only sampleExternals sampleBot sampleSettings sampleMessage zeroCommand
    "stats" "\"server\"" ["confirm"] (Or.inr (by decide))
/-! ## Lemmas on the chunking loop -/

theorem slice_in_loop (M : Nat) (b : List UInt8) (i : Nat) (hi : i < b.length) :
    slice b i (if i + M > b.length then b.length else i + M) = some ((b.drop i).take M) := by
  unfold slice
  by_cases h : i + M > b.length
  · rw [if_pos h, if_pos ⟨Nat.le_of_lt hi, Nat.le_refl _⟩]
    congr 1
    rw [List.take_of_length_le, List.take_of_length_le]
    · rw [List.length_drop]; omega
    · rw [List.length_drop]
  · rw [if_neg h, if_pos ⟨Nat.le_add_right i M, Nat.le_of_not_gt h⟩, Nat.add_sub_cancel_left]

/-- The loop started at index `i` with enough fuel returns `msgs` followed by the wrapped
segments of `jBytes` from `i` on. -/
theorem debugStateLoop_spec (M : Nat) (hM : 0 < M) (b : List UInt8) :
    ∀ (fuel i : Nat) (msgs : List (List UInt8)), b.length - i < fuel →
      ∃ segs : List (List UInt8),
        debugStateLoop M b fuel i msgs = some (msgs ++ segs.map sprintfJSONBlock)
          ∧ segs.flatten = b.drop i
          ∧ segs.length = (b.length - i + M - 1) / M := by
  intro fuel
  induction fuel with
  | zero => intro i msgs h; omega
  | succ fuel ih =>
    intro i msgs hfuel
    by_cases hi : i < b.length
    · obtain ⟨segs, hrun, hcat, hlen⟩ :=
        ih (i + M) (msgs ++ [sprintfJSONBlock ((b.drop i).take M)]) (by omega)
      refine ⟨(b.drop i).take M :: segs, ?_, ?_, ?_⟩
      · simp only [debugStateLoop, if_pos hi, slice_in_loop M b i hi, hrun, List.map_cons,
          List.append_assoc, List.singleton_append]
      · rw [List.flatten_cons, hcat, ← List.drop_drop, List.take_append_drop]
      · rw [List.length_cons, hlen]
        by_cases hle : i + M ≤ b.length
        · have : b.length - i + M - 1 = (b.length - (i + M) + M - 1) + M := by omega
          rw [this, Nat.add_div_right _ hM]
        · have h1 : b.length - (i + M) + M - 1 = M - 1 := by omega
          have h2 : (M - 1) / M = 0 := Nat.div_eq_of_lt (by omega)
          have h3 : (b.length - i + M - 1) / M = 1 := by
            apply Nat.div_eq_of_lt_le <;> omega
          rw [h1, h2, h3]
    · refine ⟨[], ?_, ?_, ?_⟩
      · simp only [debugStateLoop, if_neg hi, List.map_nil, List.append_nil]
      · rw [List.flatten_nil, List.drop_eq_nil_of_le (by omega)]
      · have h1 : b.length - i + M - 1 = M - 1 := by omega
        rw [h1, List.length_nil, Nat.div_eq_of_lt (by omega)]

/-- More fuel does not change a result the loop has reached. -/
theorem debugStateLoop_fuel_mono (M : Nat) (b : List UInt8) :
    ∀ (fuel i : Nat) (msgs r : List (List UInt8)),
      debugStateLoop M b fuel i msgs = some r →
        ∀ fuel', fuel ≤ fuel' → debugStateLoop M b fuel' i msgs = some r := by
  intro fuel
  induction fuel with
  | zero => intro i msgs r h; simp [debugStateLoop] at h
  | succ fuel ih =>
    intro i msgs r h fuel' hle
    obtain ⟨k, rfl⟩ : ∃ k, fuel' = k + 1 := ⟨fuel' - 1, by omega⟩
    by_cases hi : i < b.length
    · simp only [debugStateLoop, if_pos hi, slice_in_loop M b i hi] at h ⊢
      exact ih _ _ _ h k (by omega)
    · simp only [debugStateLoop, if_neg hi] at h ⊢
      exact h

theorem debugStateMessages_spec (M : Nat) (hM : 0 < M) (b : List UInt8) :
    ∃ segs : List (List UInt8),
      debugStateMessages M b = some (segs.map sprintfJSONBlock)
        ∧ (∀ fuel, b.length < fuel →
            debugStateLoop M b fuel 0 [] = some (segs.map sprintfJSONBlock))
        ∧ segs.flatten = b
        ∧ segs.length = (b.length + M - 1) / M := by
  obtain ⟨segs, hrun, hcat, hlen⟩ :=
    debugStateLoop_spec M hM b (b.length + 1) 0 [] (by omega)
  rw [List.nil_append] at hrun
  refine ⟨segs, hrun, fun fuel hfuel => ?_, by simpa using hcat, by simpa using hlen⟩
  exact debugStateLoop_fuel_mono M b _ 0 [] _ hrun fuel (by omega)

theorem ceil_div_bounds (S M : Nat) (hM : 0 < M) :
    S ≤ (S + M - 1) / M * M ∧ (S + M - 1) / M * M < S + M := by
  have h1 := Nat.div_add_mod (S + M - 1) M
  have h2 := Nat.mod_lt (S + M - 1) hM
  have h3 : M * ((S + M - 1) / M) = (S + M - 1) / M * M := Nat.mul_comm _ _
  constructor <;> omega

theorem natCeil_div (S M : Nat) (hM : 0 < M) :
    ⌈(S : ℚ) / (M : ℚ)⌉₊ = (S + M - 1) / M := by
  obtain ⟨hlo, hhi⟩ := ceil_div_bounds S M hM
  have hMq : (0 : ℚ) < (M : ℚ) := by exact_mod_cast hM
  by_cases hn : (S + M - 1) / M = 0
  · rw [hn, Nat.ceil_eq_zero]
    rw [hn] at hlo
    have hS : S = 0 := by omega
    subst hS
    simp
  · rw [Nat.ceil_eq_iff hn]
    constructor
    · rw [lt_div_iff₀ hMq]
      have hS : 0 < S := by
        rcases Nat.eq_zero_or_pos S with h0 | h0
        · subst h0
          exact absurd (Nat.div_eq_of_lt (by omega)) hn
        · exact h0
      have hsub : ((S + M - 1) / M - 1) * M = (S + M - 1) / M * M - M := by
        rw [Nat.sub_mul, Nat.one_mul]
      have hlt : ((S + M - 1) / M - 1) * M < S := by omega
      exact_mod_cast hlt
    · rw [div_le_iff₀ hMq]
      exact_mod_cast hlo

/-! ## Claims on the chunking loop -/

/-- C9: chunk count.  For a serialized state of `S` bytes and a maximum chunk size
`M > 0`, the chunking loop of `commandFnDebugState` returns (with any fuel above `S`), and
the number of messages it produces is the ceiling of `S / M`, that is the least `n` with
`S ≤ n * M`; it produces no message when `S = 0`.  The handler returns these messages to
the issuing channel. -/
theorem debugState_chunk_count (M : Nat) (hM : 0 < M) (jBytes : List UInt8) :
    ∃ msgs : List (List UInt8),
      debugStateMessages M jBytes = some msgs
        ∧ (∀ fuel, jBytes.length < fuel → debugStateLoop M jBytes fuel 0 [] = some msgs)
        ∧ msgs.length = ⌈(jBytes.length : ℚ) / (M : ℚ)⌉₊
        ∧ msgs.length = (jBytes.length + M - 1) / M
        ∧ jBytes.length ≤ msgs.length * M
        ∧ msgs.length * M < jBytes.length + M
        ∧ (jBytes.length = 0 → msgs = [])
        ∧ ∀ (State : Type) (getState : GameStateRequest → Option State)
            (marshalIndent : State → Except String (List UInt8)) (message : MessageCreate)
            (state : State),
            message.Author.isSome = true →
            getState ⟨message.GuildID, message.ChannelID⟩ = some state →
            marshalIndent state = Except.ok jBytes →
            commandFnDebugState M getState marshalIndent message
              = some ⟨message.ChannelID, Payload.texts msgs, []⟩ := by
  obtain ⟨segs, hrun, hfuel, _, hlen⟩ := debugStateMessages_spec M hM jBytes
  have hlen' : (segs.map sprintfJSONBlock).length = (jBytes.length + M - 1) / M := by
    rw [List.length_map, hlen]
  obtain ⟨hlo, hhi⟩ := ceil_div_bounds jBytes.length M hM
  refine ⟨segs.map sprintfJSONBlock, hrun, hfuel, ?_, hlen', ?_, ?_, ?_, ?_⟩
  · rw [hlen', natCeil_div _ _ hM]
  · rw [hlen']; exact hlo
  · rw [hlen']; exact hhi
  · intro h0
    apply List.eq_nil_of_length_eq_zero
    rw [hlen', h0]
    exact Nat.div_eq_of_lt (by omega)
  · intro State getState marshalIndent message state hauth hstate hmarshal
    simp only [commandFnDebugState, hauth, if_true, hstate, hmarshal, hrun]

/-- Witness of C9: seven bytes cut at three bytes give three messages. -/
theorem debugState_chunk_count_witness :
    ∃ msgs : List (List UInt8),
      debugStateMessages 3 [1, 2, 3, 4, 5, 6, 7] = some msgs ∧ msgs.length = 3 := by
  obtain ⟨msgs, h1, _, _, h2, _⟩ :=
    debugState_chunk_count 3 (by decide) [1, 2, 3, 4, 5, 6, 7]
  exact ⟨msgs, h1, h2⟩

/-- C10: chunking is lossless and order-preserving.  For `M > 0` the loop of
`commandFnDebugState` returns (with any fuel above the content length), every message it
produces is the fixed prefix, a segment of the byte content and the fixed suffix, and the
segments concatenated in output order are exactly the byte content.  These messages, in
this order, are the payload that `commandFnDebugState` returns to the issuing channel when
the author, the state and its serialization `jBytes` are present. -/
theorem debugState_chunks_lossless (M : Nat) (hM : 0 < M) (jBytes : List UInt8) :
    ∃ segs : List (List UInt8),
      debugStateMessages M jBytes
          = some (segs.map fun seg => utf8Bytes "```JSON\n" ++ seg ++ utf8Bytes "\n```")
        ∧ (∀ fuel, jBytes.length < fuel →
            debugStateLoop M jBytes fuel 0 []
              = some (segs.map fun seg => utf8Bytes "```JSON\n" ++ seg ++ utf8Bytes "\n```"))
        ∧ segs.flatten = jBytes
        ∧ (∀ seg ∈ segs, seg <:+: jBytes)
        ∧ utf8Bytes "```JSON\n" = [96, 96, 96, 74, 83, 79, 78, 10]
        ∧ utf8Bytes "\n```" = [10, 96, 96, 96]
        ∧ ∀ (State : Type) (getState : GameStateRequest → Option State)
            (marshalIndent : State → Except String (List UInt8)) (message : MessageCreate)
            (state : State),
            message.Author.isSome = true →
            getState ⟨message.GuildID, message.ChannelID⟩ = some state →
            marshalIndent state = Except.ok jBytes →
            commandFnDebugState M getState marshalIndent message
              = some ⟨message.ChannelID,
                  Payload.texts
                    (segs.map fun seg => utf8Bytes "```JSON\n" ++ seg ++ utf8Bytes "\n```"),
                  []⟩ := by
  obtain ⟨segs, hrun, hfuel, hcat, _⟩ := debugStateMessages_spec M hM jBytes
  refine ⟨segs, hrun, hfuel, hcat, ?_, by decide, by decide, ?_⟩
  · intro seg hseg
    rw [← hcat]
    exact List.infix_of_mem_flatten hseg
  · intro State getState marshalIndent message state hauth hstate hmarshal
    show commandFnDebugState M getState marshalIndent message
      = some ⟨message.ChannelID, Payload.texts (segs.map sprintfJSONBlock), []⟩
    simp only [commandFnDebugState, hauth, if_true, hstate, hmarshal, hrun]

/-- Witness of C10: seven bytes cut at three bytes, and the handler on a state that is
serialized to these seven bytes. -/
theorem debugState_chunks_lossless_witness :
    ∃ segs : List (List UInt8),
      debugStateMessages 3 [1, 2, 3, 4, 5, 6, 7]
          = some (segs.map fun seg => utf8Bytes "```JSON\n" ++ seg ++ utf8Bytes "\n```")
        ∧ segs.flatten = [1, 2, 3, 4, 5, 6, 7]
        ∧ commandFnDebugState 3 (fun _ => some ())
            (fun _ => Except.ok [1, 2, 3, 4, 5, 6, 7]) sampleMessage
          = some ⟨sampleMessage.ChannelID,
              Payload.texts
                (segs.map fun seg => utf8Bytes "```JSON\n" ++ seg ++ utf8Bytes "\n```"),
              []⟩ := by
  obtain ⟨segs, h1, _, h2, _, _, _, h3⟩ :=
    debugState_chunks_lossless 3 (by decide) [1, 2, 3, 4, 5, 6, 7]
  exact ⟨segs, h1, h2, h3 Unit (fun _ => some ()) (fun _ => Except.ok [1, 2, 3, 4, 5, 6, 7])
    sampleMessage () rfl rfl rfl⟩

/-! ## Claim on the size of the chunks -/

/-- The segments cut by the loop from index `i` on: what they are and how long. -/
theorem debugStateLoop_sizes (M : Nat) (hM : 0 < M) (b : List UInt8) :
    ∀ (fuel i : Nat) (msgs : List (List UInt8)), b.length - i < fuel →
      ∃ segs : List (List UInt8),
        debugStateLoop M b fuel i msgs = some (msgs ++ segs.map sprintfJSONBlock)
          ∧ segs.flatten = b.drop i
          ∧ (∀ seg ∈ segs, 0 < seg.length ∧ seg.length ≤ M)
          ∧ (∀ seg ∈ segs.dropLast, seg.length = M) := by
  intro fuel
  induction fuel with
  | zero => intro i msgs h; omega
  | succ fuel ih =>
    intro i msgs hfuel
    by_cases hi : i < b.length
    · obtain ⟨segs, hrun, hcat, hsize, hfull⟩ :=
        ih (i + M) (msgs ++ [sprintfJSONBlock ((b.drop i).take M)]) (by omega)
      have hlen : ((b.drop i).take M).length = min M (b.length - i) := by
        rw [List.length_take, List.length_drop]
      refine ⟨(b.drop i).take M :: segs, ?_, ?_, ?_, ?_⟩
      · simp only [debugStateLoop, if_pos hi, slice_in_loop M b i hi, hrun, List.map_cons,
          List.append_assoc, List.singleton_append]
      · rw [List.flatten_cons, hcat, ← List.drop_drop, List.take_append_drop]
      · intro seg hseg
        rcases List.mem_cons.1 hseg with h | h
        · rw [h, hlen]; omega
        · exact hsize seg h
      · intro seg hseg
        cases segs with
        | nil => simp at hseg
        | cons s rest =>
          rw [List.dropLast_cons₂] at hseg
          rcases List.mem_cons.1 hseg with h | h
          · have hs : 0 < s.length := (hsize s (List.mem_cons_self _ _)).1
            have hne : (b.drop (i + M)).length ≠ 0 := by
              rw [← hcat, List.flatten_cons, List.length_append]
              omega
            rw [List.length_drop] at hne
            rw [h, hlen]
            omega
          · exact hfull seg h
    · refine ⟨[], ?_, ?_, ?_, ?_⟩
      · simp only [debugStateLoop, if_neg hi, List.map_nil, List.append_nil]
      · rw [List.flatten_nil, List.drop_eq_nil_of_le (by omega)]
      · intro seg hseg; simp at hseg
      · intro seg hseg; simp at hseg

/-- C11: chunk size bound.  For `M > 0` the loop of `commandFnDebugState` returns (with any
fuel above the content length) the wrapped segments of the content; every segment is
non-empty and has at most `M` bytes, and every segment except possibly the last has exactly
`M` bytes.  The wrapped segments are the payload the handler returns when the author, the
state and its serialization `jBytes` are present. -/
theorem debugState_chunk_sizes (M : Nat) (hM : 0 < M) (jBytes : List UInt8) :
    ∃ segs : List (List UInt8),
      debugStateMessages M jBytes = some (segs.map sprintfJSONBlock)
        ∧ (∀ fuel, jBytes.length < fuel →
            debugStateLoop M jBytes fuel 0 [] = some (segs.map sprintfJSONBlock))
        ∧ segs.flatten = jBytes
        ∧ (∀ seg ∈ segs, seg ≠ [] ∧ 0 < seg.length ∧ seg.length ≤ M)
        ∧ (∀ seg ∈ segs.dropLast, seg.length = M)
        ∧ (∀ k, k + 1 < segs.length → (segs.getD k []).length = M)
        ∧ ∀ (State : Type) (getState : GameStateRequest → Option State)
            (marshalIndent : State → Except String (List UInt8)) (message : MessageCreate)
            (state : State),
            message.Author.isSome = true →
            getState ⟨message.GuildID, message.ChannelID⟩ = some state →
            marshalIndent state = Except.ok jBytes →
            commandFnDebugState M getState marshalIndent message
              = some ⟨message.ChannelID, Payload.texts (segs.map sprintfJSONBlock), []⟩ := by
  obtain ⟨segs, hrun, hcat, hsize, hfull⟩ :=
    debugStateLoop_sizes M hM jBytes (jBytes.length + 1) 0 [] (by omega)
  rw [List.nil_append] at hrun
  refine ⟨segs, hrun, fun fuel hfuel => ?_, by simpa using hcat, ?_, hfull, ?_, ?_⟩
  rotate_left 3
  · intro State getState marshalIndent message state hauth hstate hmarshal
    simp only [commandFnDebugState, hauth, if_true, hstate, hmarshal, debugStateMessages, hrun]
  · exact debugStateLoop_fuel_mono M jBytes _ 0 [] _ hrun fuel (by omega)
  · intro seg hseg
    have h := hsize seg hseg
    exact ⟨List.ne_nil_of_length_pos h.1, h.1, h.2⟩
  · intro k hk
    apply hfull
    have hk' : k < segs.dropLast.length := by rw [List.length_dropLast]; omega
    have : segs.getD k [] = segs.dropLast.get ⟨k, hk'⟩ := by
      rw [List.getD_eq_getElem _ _ (by omega)]
      simp [List.getElem_dropLast]
    rw [this]
    exact List.get_mem _ _ _

/-- Witness of C11: seven bytes cut at three bytes give segments of at most three bytes. -/
theorem debugState_chunk_sizes_witness :
    ∃ segs : List (List UInt8),
      debugStateMessages 3 [1, 2, 3, 4, 5, 6, 7] = some (segs.map sprintfJSONBlock)
        ∧ segs.flatten = [1, 2, 3, 4, 5, 6, 7]
        ∧ (∀ seg ∈ segs, seg ≠ [] ∧ 0 < seg.length ∧ seg.length ≤ 3)
        ∧ (∀ seg ∈ segs.dropLast, seg.length = 3) := by
  obtain ⟨segs, h1, _, h2, h3, h4, _⟩ :=
    debugState_chunk_sizes 3 (by decide) [1, 2, 3, 4, 5, 6, 7]
  exact ⟨segs, h1, h2, h3, h4⟩

/-! ## Claims on the session lock -/

/-- C12: lock contention short-circuits.  In `commandFnPause`, in `commandFnLink` with at
least two arguments and in `commandFnUnlink` with a valid user mention, when
`GetDiscordGameStateAndLock` returns no lock the handler returns
`(message.ChannelID, "Could not obtain lock")`; it has made one acquisition attempt and no
call to `SetDiscordGameState`, `linkPlayer`, `ClearPlayerData`, `applyToAll` or `Edit`. -/
theorem lock_contention_short_circuits {D L G : Type} (ext : Externals)
    (bot : SessionBot D L G) (sett : GuildSettings) (guild : G) (message : MessageCreate)
    (cmd : Command) (a0 a1 a2 : String) (rest : List String)
    (hlock : (bot.RedisInterface.GetDiscordGameStateAndLock
      ⟨message.GuildID, message.ChannelID⟩).1 = none) :
    (commandFnPause bot sett message
        = ⟨message.ChannelID, Payload.text "Could not obtain lock",
            [SessionCall.GetDiscordGameStateAndLock ⟨message.GuildID, message.ChannelID⟩]⟩
      ∧ (acquisitions (commandFnPause bot sett message).calls).length = 1
      ∧ mutations (commandFnPause bot sett message).calls = [])
    ∧ (∃ out, commandFnLink ext bot sett guild message (a0 :: a1 :: a2 :: rest) cmd = some out
        ∧ out.channel = message.ChannelID
        ∧ out.payload = Payload.text "Could not obtain lock"
        ∧ out.calls
            = [SessionCall.GetDiscordGameStateAndLock ⟨message.GuildID, message.ChannelID⟩]
        ∧ (acquisitions out.calls).length = 1
        ∧ mutations out.calls = [])
    ∧ ((ext.ExtractUserIDFromMention a1).2 = none →
        ∃ out, commandFnUnlink ext bot sett message (a0 :: a1 :: rest) cmd = some out
          ∧ out.channel = message.ChannelID
          ∧ out.payload = Payload.text "Could not obtain lock"
          ∧ out.calls
              = [SessionCall.logPrintln
                    ("Removing player " ++ (ext.ExtractUserIDFromMention a1).1),
                  SessionCall.GetDiscordGameStateAndLock
                    ⟨message.GuildID, message.ChannelID⟩]
          ∧ (acquisitions out.calls).length = 1
          ∧ mutations out.calls = []) := by
  have hp : commandFnPause bot sett message
      = ⟨message.ChannelID, Payload.text "Could not obtain lock",
          [SessionCall.GetDiscordGameStateAndLock ⟨message.GuildID, message.ChannelID⟩]⟩ := by
    simp only [commandFnPause, hlock, NoLock]
  refine ⟨⟨hp, ?_, ?_⟩, ?_, ?_⟩
  · rw [hp]; rfl
  · rw [hp]; rfl
  · refine ⟨⟨message.ChannelID, Payload.text "Could not obtain lock",
      [SessionCall.GetDiscordGameStateAndLock ⟨message.GuildID, message.ChannelID⟩]⟩,
      ?_, rfl, rfl, rfl, rfl, rfl⟩
    simp [commandFnLink, hlock, NoLock]
  · intro herr
    refine ⟨⟨message.ChannelID, Payload.text "Could not obtain lock",
      [SessionCall.logPrintln ("Removing player " ++ (ext.ExtractUserIDFromMention a1).1),
        SessionCall.GetDiscordGameStateAndLock ⟨message.GuildID, message.ChannelID⟩]⟩,
      ?_, rfl, rfl, rfl, rfl, rfl⟩
    simp [commandFnUnlink, herr, hlock, NoLock]

/-- Witness of C12 on the sample bot whose lock is held elsewhere. -/
theorem lock_contention_short_circuits_witness :
    commandFnPause sampleLockedBot sampleSettings sampleMessage
        = ⟨"c1", Payload.text "Could not obtain lock",
            [SessionCall.GetDiscordGameStateAndLock ⟨"g1", "c1"⟩]⟩
    ∧ ∃ out, commandFnUnlink sampleExternals sampleLockedBot sampleSettings sampleMessage
          ["unlink", "<@!42>"] zeroCommand = some out
        ∧ out.payload = Payload.text "Could not obtain lock"
        ∧ mutations out.calls = [] :=
  have h := lock_contention_short_circuits sampleExternals sampleLockedBot sampleSettings ()
    sampleMessage zeroCommand "unlink" "<@!42>" "red" [] rfl
  ⟨h.1.1, by
    obtain ⟨out, h1, _, h2, _, _, h3⟩ := h.2.2 rfl
    exact ⟨out, h1, h2, h3⟩⟩

/-- C13: the lock is handed back on every exit path.  In `commandFnPause`, `commandFnLink`
and `commandFnUnlink`, whenever `GetDiscordGameStateAndLock` returned a lock the handler
returns after calling `SetDiscordGameState` exactly once, later than the acquisition and
with that same lock. -/
theorem lock_handed_back_once {D L G : Type} (ext : Externals)
    (bot : SessionBot D L G) (sett : GuildSettings) (guild : G) (message : MessageCreate)
    (cmd : Command) (a0 a1 a2 : String) (rest : List String) (lock : L)
    (hlock : (bot.RedisInterface.GetDiscordGameStateAndLock
      ⟨message.GuildID, message.ChannelID⟩).1 = some lock) :
    (handedBack (commandFnPause bot sett message).calls = [lock]
      ∧ ∃ dgs after, (commandFnPause bot sett message).calls
          = [SessionCall.GetDiscordGameStateAndLock ⟨message.GuildID, message.ChannelID⟩,
              SessionCall.SetDiscordGameState dgs lock] ++ after
        ∧ handedBack after = [])
    ∧ (∃ out, commandFnLink ext bot sett guild message (a0 :: a1 :: a2 :: rest) cmd = some out
        ∧ handedBack out.calls = [lock]
        ∧ ∃ dgs after, out.calls
            = [SessionCall.GetDiscordGameStateAndLock ⟨message.GuildID, message.ChannelID⟩,
                SessionCall.linkPlayer guild
                  (bot.RedisInterface.GetDiscordGameStateAndLock
                    ⟨message.GuildID, message.ChannelID⟩).2 (a1 :: a2 :: rest),
                SessionCall.SetDiscordGameState dgs lock] ++ after
          ∧ handedBack after = [])
    ∧ ((ext.ExtractUserIDFromMention a1).2 = none →
        ∃ out, commandFnUnlink ext bot sett message (a0 :: a1 :: rest) cmd = some out
          ∧ handedBack out.calls = [lock]
          ∧ ∃ dgs after, out.calls
              = [SessionCall.logPrintln
                    ("Removing player " ++ (ext.ExtractUserIDFromMention a1).1),
                  SessionCall.GetDiscordGameStateAndLock
                    ⟨message.GuildID, message.ChannelID⟩,
                  SessionCall.ClearPlayerData
                    (bot.RedisInterface.GetDiscordGameStateAndLock
                      ⟨message.GuildID, message.ChannelID⟩).2
                    (ext.ExtractUserIDFromMention a1).1,
                  SessionCall.SetDiscordGameState dgs lock] ++ after
            ∧ handedBack after = []) := by
  refine ⟨⟨?_, ?_⟩, ?_, ?_⟩
  · simp only [commandFnPause, hlock]
    split <;> rfl
  · simp only [commandFnPause, hlock]
    refine ⟨_, _, List.append_assoc _ _ _, ?_⟩
    split <;> rfl
  · have hrun : commandFnLink ext bot sett guild message (a0 :: a1 :: a2 :: rest) cmd
        = some ⟨"", Payload.nil,
            [SessionCall.GetDiscordGameStateAndLock ⟨message.GuildID, message.ChannelID⟩,
              SessionCall.linkPlayer guild
                (bot.RedisInterface.GetDiscordGameStateAndLock
                  ⟨message.GuildID, message.ChannelID⟩).2 (a1 :: a2 :: rest),
              SessionCall.SetDiscordGameState
                (bot.linkPlayer guild
                  (bot.RedisInterface.GetDiscordGameStateAndLock
                    ⟨message.GuildID, message.ChannelID⟩).2 (a1 :: a2 :: rest)) lock,
              SessionCall.Edit
                (bot.linkPlayer guild
                  (bot.RedisInterface.GetDiscordGameStateAndLock
                    ⟨message.GuildID, message.ChannelID⟩).2 (a1 :: a2 :: rest))
                (bot.gameStateResponse
                  (bot.linkPlayer guild
                    (bot.RedisInterface.GetDiscordGameStateAndLock
                      ⟨message.GuildID, message.ChannelID⟩).2 (a1 :: a2 :: rest)) sett)]⟩ := by
      simp [commandFnLink, hlock]
    exact ⟨_, hrun, rfl, _, _, rfl, rfl⟩
  · intro herr
    have hrun : commandFnUnlink ext bot sett message (a0 :: a1 :: rest) cmd
        = some ⟨"", Payload.nil,
            [SessionCall.logPrintln
                ("Removing player " ++ (ext.ExtractUserIDFromMention a1).1),
              SessionCall.GetDiscordGameStateAndLock ⟨message.GuildID, message.ChannelID⟩,
              SessionCall.ClearPlayerData
                (bot.RedisInterface.GetDiscordGameStateAndLock
                  ⟨message.GuildID, message.ChannelID⟩).2
                (ext.ExtractUserIDFromMention a1).1,
              SessionCall.SetDiscordGameState
                (bot.ClearPlayerData
                  (bot.RedisInterface.GetDiscordGameStateAndLock
                    ⟨message.GuildID, message.ChannelID⟩).2
                  (ext.ExtractUserIDFromMention a1).1) lock,
              SessionCall.Edit
                (bot.ClearPlayerData
                  (bot.RedisInterface.GetDiscordGameStateAndLock
                    ⟨message.GuildID, message.ChannelID⟩).2
                  (ext.ExtractUserIDFromMention a1).1)
                (bot.gameStateResponse
                  (bot.ClearPlayerData
                    (bot.RedisInterface.GetDiscordGameStateAndLock
                      ⟨message.GuildID, message.ChannelID⟩).2
                    (ext.ExtractUserIDFromMention a1).1) sett)]⟩ := by
      simp [commandFnUnlink, herr, hlock]
    exact ⟨_, hrun, rfl, _, _, rfl, rfl⟩

/-- Witness of C13 on the sample bot, whose lock is `1`. -/
theorem lock_handed_back_once_witness :
    handedBack (commandFnPause sampleSessionBot sampleSettings sampleMessage).calls = [1]
    ∧ ∃ out, commandFnLink sampleExternals sampleSessionBot sampleSettings () sampleMessage
          ["link", "<@!42>", "red"] zeroCommand = some out
        ∧ handedBack out.calls = [1] :=
  have h := lock_handed_back_once sampleExternals sampleSessionBot sampleSettings ()
    sampleMessage zeroCommand "link" "<@!42>" "red" [] 1 rfl
  ⟨h.1.1, by
    obtain ⟨out, h1, h2, _⟩ := h.2.1
    exact ⟨out, h1, h2⟩⟩

/-! ## Claims on maps -/

theorem canonicalMapName_cases (lower : Char → Char) (name : String) :
    (toLower lower name ∈ ["the skeld", "the_skeld", "skeld"]
        ∧ canonicalMapName lower name = some "the_skeld")
    ∨ (toLower lower name ∈ ["mira", "mira_hq", "mira hq", "mirahq"]
        ∧ canonicalMapName lower name = some "mira_hq")
    ∨ (toLower lower name = "polus" ∧ canonicalMapName lower name = some "polus")
    ∨ (toLower lower name ∈ ["airship", "ship", "air"]
        ∧ canonicalMapName lower name = some "airship")
    ∨ (toLower lower name ∉
          ["the skeld", "the_skeld", "skeld", "mira", "mira_hq", "mira hq", "mirahq", "polus",
            "airship", "ship", "air"]
        ∧ canonicalMapName lower name = none) := by
  unfold canonicalMapName
  simp only [List.mem_cons, List.mem_singleton, List.not_mem_nil, or_false]
  by_cases h1 : toLower lower name = "the skeld" ∨ toLower lower name = "the_skeld"
      ∨ toLower lower name = "skeld"
  · exact Or.inl ⟨h1, if_pos h1⟩
  · by_cases h2 : toLower lower name = "mira" ∨ toLower lower name = "mira_hq"
        ∨ toLower lower name = "mira hq" ∨ toLower lower name = "mirahq"
    · exact Or.inr (Or.inl ⟨h2, by rw [if_neg h1, if_pos h2]⟩)
    · by_cases h3 : toLower lower name = "polus"
      · exact Or.inr (Or.inr (Or.inl ⟨h3, by rw [if_neg h1, if_neg h2, if_pos h3]⟩))
      · by_cases h4 : toLower lower name = "airship" ∨ toLower lower name = "ship"
            ∨ toLower lower name = "air"
        · exact Or.inr (Or.inr (Or.inr (Or.inl
            ⟨h4, by rw [if_neg h1, if_neg h2, if_neg h3, if_pos h4]⟩)))
        · refine Or.inr (Or.inr (Or.inr (Or.inr
            ⟨?_, by rw [if_neg h1, if_neg h2, if_neg h3, if_neg h4]⟩)))
          intro h
          rcases h with h | h | h | h | h | h | h | h | h | h | h
          · exact h1 (Or.inl h)
          · exact h1 (Or.inr (Or.inl h))
          · exact h1 (Or.inr (Or.inr h))
          · exact h2 (Or.inl h)
          · exact h2 (Or.inr (Or.inl h))
          · exact h2 (Or.inr (Or.inr (Or.inl h)))
          · exact h2 (Or.inr (Or.inr (Or.inr h)))
          · exact h3 h
          · exact h4 (Or.inl h)
          · exact h4 (Or.inr (Or.inl h))
          · exact h4 (Or.inr (Or.inr h))

theorem NewMapItem_of_none {U : Type} (lower : Char → Char) (url : UrlLib U)
    (getenv : String → String) (name : String) (sett : GuildSettings)
    (h : canonicalMapName lower name = none) :
    NewMapItem lower url getenv name sett
      = some (Except.error ("Invalid map name: " ++ name)) := by
  simp only [NewMapItem, h]

/-- With a recognised name, `NewMapItem` depends on the name only through its canonical
form, and never reports an invalid name. -/
theorem NewMapItem_of_some {U : Type} (lower : Char → Char) (url : UrlLib U)
    (getenv : String → String) (name n : String) (sett : GuildSettings)
    (h : canonicalMapName lower name = some n) :
    NewMapItem lower url getenv name sett
      = match url.Parse
          ((if getenv "BASE_MAP_URL" = "" then
              "https://github.com/automuteus/automuteus/blob/master/assets/maps/"
            else getenv "BASE_MAP_URL") ++ (sett.GetLanguage ++ "/")) with
        | Except.error _ => none
        | Except.ok base =>
          match url.URLParse base (n ++ ".png"), url.URLParse base (n ++ "_detailed.png") with
          | Except.ok simpleURL, Except.ok detailedURL =>
            some (Except.ok
              { Name := n,
                MapImage :=
                  { Simple := url.URLString simpleURL,
                    Detailed := url.URLString detailedURL } })
          | _, _ => none := by
  simp only [NewMapItem, h]

theorem NewMapItem_ok_name {U : Type} (lower : Char → Char) (url : UrlLib U)
    (getenv : String → String) (name n : String) (sett : GuildSettings)
    (h : canonicalMapName lower name = some n) (r : Except String MapItem)
    (hr : NewMapItem lower url getenv name sett = some r) :
    ∃ item, r = Except.ok item ∧ item.Name = n := by
  rw [NewMapItem_of_some lower url getenv name n sett h] at hr
  split at hr
  · exact absurd hr (by simp)
  · split at hr
    · exact ⟨_, (Option.some.inj hr).symm, rfl⟩
    · exact absurd hr (by simp)

/-- C14, as stated, fails: a recognised name does not always give a `MapItem`.  With
`BASE_MAP_URL` set to `http://[::1/`, which `url.Parse` rejects, `NewMapItem` on `polus`
logs the error, goes on with the `nil` URL and returns nothing; with the variable unset
the same call returns the item. -/
theorem newMapItem_recognised_without_item :
    canonicalMapName (fun c => c) "polus" = some "polus"
    ∧ NewMapItem (fun c => c) sampleStrictUrlLib
        (fun v => if v = "BASE_MAP_URL" then "http://[::1/" else "") "polus" sampleSettings
      = none
    ∧ NewMapItem (fun c => c) sampleStrictUrlLib (fun _ => "") "polus" sampleSettings
      = some (Except.ok
          { Name := "polus",
            MapImage :=
              { Simple :=
                  "https://github.com/automuteus/automuteus/blob/master/assets/maps/en/polus.png",
                Detailed :=
                  "https://github.com/automuteus/automuteus/blob/master/assets/maps/en/polus_detailed.png" } }) := by
  exact ⟨rfl, rfl, rfl⟩

/-- C14, amended: map identifier normalisation.  `NewMapItem` reports an invalid name
exactly when the lower-cased name is none of the eleven recognised spellings; a `MapItem`
is returned only for a recognised spelling and then carries the canonical name of its
group; for a recognised spelling it is returned whenever the base URL parses and the two
file names resolve against it.  The spellings `skeld`, `the skeld` and `the_skeld`, in
any letter case, give the same result for the same settings; `moon`, `dleks` and the
empty name give an error and no `MapItem`. -/
theorem newMapItem_normalises {U : Type} (lower : Char → Char) (url : UrlLib U)
    (getenv : String → String) (name : String) (sett : GuildSettings) :
    (toLower lower name ∉
          ["the skeld", "the_skeld", "skeld", "mira", "mira_hq", "mira hq", "mirahq", "polus",
            "airship", "ship", "air"]
        ↔ NewMapItem lower url getenv name sett
            = some (Except.error ("Invalid map name: " ++ name)))
    ∧ (∀ item, NewMapItem lower url getenv name sett = some (Except.ok item) →
        (toLower lower name ∈ ["the skeld", "the_skeld", "skeld"] ∧ item.Name = "the_skeld")
        ∨ (toLower lower name ∈ ["mira", "mira_hq", "mira hq", "mirahq"]
            ∧ item.Name = "mira_hq")
        ∨ (toLower lower name = "polus" ∧ item.Name = "polus")
        ∨ (toLower lower name ∈ ["airship", "ship", "air"] ∧ item.Name = "airship"))
    ∧ (toLower lower name ∈
          ["the skeld", "the_skeld", "skeld", "mira", "mira_hq", "mira hq", "mirahq", "polus",
            "airship", "ship", "air"] →
        ∃ n, canonicalMapName lower name = some n
          ∧ ∀ base u1 u2,
              url.Parse
                ((if getenv "BASE_MAP_URL" = "" then
                    "https://github.com/automuteus/automuteus/blob/master/assets/maps/"
                  else getenv "BASE_MAP_URL") ++ (sett.GetLanguage ++ "/")) = Except.ok base →
              url.URLParse base (n ++ ".png") = Except.ok u1 →
              url.URLParse base (n ++ "_detailed.png") = Except.ok u2 →
              ∃ item, NewMapItem lower url getenv name sett = some (Except.ok item)
                ∧ item.Name = n)
    ∧ (∀ name', toLower lower name ∈ ["the skeld", "the_skeld", "skeld"] →
        toLower lower name' ∈ ["the skeld", "the_skeld", "skeld"] →
        NewMapItem lower url getenv name' sett = NewMapItem lower url getenv name sett)
    ∧ NewMapItem lower url getenv "moon" sett = some (Except.error "Invalid map name: moon")
    ∧ NewMapItem lower url getenv "dleks" sett = some (Except.error "Invalid map name: dleks")
    ∧ NewMapItem lower url getenv "" sett = some (Except.error "Invalid map name: ") := by
  have hskeld : ∀ nm, toLower lower nm ∈ ["the skeld", "the_skeld", "skeld"] →
      canonicalMapName lower nm = some "the_skeld" := by
    intro nm h
    simp only [List.mem_cons, List.mem_singleton, List.not_mem_nil, or_false] at h
    unfold canonicalMapName
    exact if_pos h
  refine ⟨⟨fun hn => ?_, fun he => ?_⟩, fun item hitem => ?_, fun hacc => ?_,
    fun name' h h' => ?_, ?_, ?_, ?_⟩
  · rcases canonicalMapName_cases lower name with h | h | h | h | h
    · exact absurd (by simp only [List.mem_cons, List.mem_singleton, List.not_mem_nil,
        or_false] at h ⊢; tauto) hn
    · exact absurd (by simp only [List.mem_cons, List.mem_singleton, List.not_mem_nil,
        or_false] at h ⊢; tauto) hn
    · exact absurd (by simp only [List.mem_cons, List.mem_singleton, List.not_mem_nil,
        or_false] at h ⊢; tauto) hn
    · exact absurd (by simp only [List.mem_cons, List.mem_singleton, List.not_mem_nil,
        or_false] at h ⊢; tauto) hn
    · exact NewMapItem_of_none lower url getenv name sett h.2
  · rcases canonicalMapName_cases lower name with h | h | h | h | h
    · obtain ⟨item, hi, _⟩ := NewMapItem_ok_name lower url getenv name _ sett h.2 _ he
      exact absurd hi (by simp)
    · obtain ⟨item, hi, _⟩ := NewMapItem_ok_name lower url getenv name _ sett h.2 _ he
      exact absurd hi (by simp)
    · obtain ⟨item, hi, _⟩ := NewMapItem_ok_name lower url getenv name _ sett h.2 _ he
      exact absurd hi (by simp)
    · obtain ⟨item, hi, _⟩ := NewMapItem_ok_name lower url getenv name _ sett h.2 _ he
      exact absurd hi (by simp)
    · exact h.1
  · rcases canonicalMapName_cases lower name with h | h | h | h | h
    · obtain ⟨i, hi, hn⟩ := NewMapItem_ok_name lower url getenv name _ sett h.2 _ hitem
      cases hi
      exact Or.inl ⟨h.1, hn⟩
    · obtain ⟨i, hi, hn⟩ := NewMapItem_ok_name lower url getenv name _ sett h.2 _ hitem
      cases hi
      exact Or.inr (Or.inl ⟨h.1, hn⟩)
    · obtain ⟨i, hi, hn⟩ := NewMapItem_ok_name lower url getenv name _ sett h.2 _ hitem
      cases hi
      exact Or.inr (Or.inr (Or.inl ⟨h.1, hn⟩))
    · obtain ⟨i, hi, hn⟩ := NewMapItem_ok_name lower url getenv name _ sett h.2 _ hitem
      cases hi
      exact Or.inr (Or.inr (Or.inr ⟨h.1, hn⟩))
    · rw [NewMapItem_of_none lower url getenv name sett h.2] at hitem
      exact absurd hitem (by simp)
  · have hsome : ∃ n, canonicalMapName lower name = some n := by
      rcases canonicalMapName_cases lower name with h | h | h | h | h
      · exact ⟨_, h.2⟩
      · exact ⟨_, h.2⟩
      · exact ⟨_, h.2⟩
      · exact ⟨_, h.2⟩
      · exact absurd hacc h.1
    obtain ⟨n, hn⟩ := hsome
    refine ⟨n, hn, fun base u1 u2 hbase h1 h2 => ?_⟩
    rw [NewMapItem_of_some lower url getenv name n sett hn]
    simp only [hbase, h1, h2]
    exact ⟨_, rfl, rfl⟩
  · rw [NewMapItem_of_some lower url getenv name _ sett (hskeld name h),
      NewMapItem_of_some lower url getenv name' _ sett (hskeld name' h')]
  · rfl
  · rfl
  · rfl

/-- Witness of C14 (amended): `SKELD` is recognised and named `the_skeld`. -/
theorem newMapItem_normalises_witness :
    ∃ item, NewMapItem (fun c => c) sampleUrlLib (fun _ => "") "SKELD" sampleSettings
        = some (Except.ok item)
      ∧ item.Name = "the_skeld" := by
  have h := newMapItem_normalises (fun c => c) sampleUrlLib (fun _ => "") "SKELD"
    sampleSettings
  obtain ⟨n, hn, hrun⟩ := h.2.2.1 (by decide)
  obtain ⟨item, hitem, _⟩ := hrun _ _ _ rfl rfl rfl
  refine ⟨item, hitem, ?_⟩
  rcases h.2.1 item hitem with h1 | h1 | h1 | h1
  · exact h1.2
  · exact absurd h1.1 (by decide)
  · exact absurd h1.1 (by decide)
  · exact absurd h1.1 (by decide)

/-- C15, as stated, fails: the URLs are what `net/url` prints, not the plain
concatenation.  With `BASE_MAP_URL` set to `HTTPS://maps.test/` and language `en`,
`url.Parse` lower-cases the scheme, so `Simple` for `polus` is
`https://maps.test/en/polus.png` and not `HTTPS://maps.test/en/polus.png`. -/
theorem newMapItem_urls_not_concatenated :
    NewMapItem (fun c => c) sampleStrictUrlLib
        (fun v => if v = "BASE_MAP_URL" then "HTTPS://maps.test/" else "") "polus"
        sampleSettings
      = some (Except.ok
          { Name := "polus",
            MapImage :=
              { Simple := "https://maps.test/en/polus.png",
                Detailed := "https://maps.test/en/polus_detailed.png" } })
    ∧ "https://maps.test/en/polus.png"
        ≠ "HTTPS://maps.test/" ++ sampleSettings.GetLanguage ++ "/" ++ "polus" ++ ".png" := by
  exact ⟨rfl, by decide⟩

/-- C15, amended: map URL construction.  For a recognised map name with canonical
identifier `n` and guild language `L`, with `B` the value of `BASE_MAP_URL` or the fixed
default when that value is empty, `NewMapItem` parses `B ++ L ++ "/"` as the base URL,
resolves `n ++ ".png"` and `n ++ "_detailed.png"` against it and returns, as `Simple` and
`Detailed` in this order, the two resolved URLs as `(*URL).String` prints them. -/
theorem newMapItem_urls {U : Type} (lower : Char → Char) (url : UrlLib U)
    (getenv : String → String) (name n : String) (sett : GuildSettings) (base u1 u2 : U)
    (hn : canonicalMapName lower name = some n)
    (hbase : url.Parse
      ((if getenv "BASE_MAP_URL" = "" then
          "https://github.com/automuteus/automuteus/blob/master/assets/maps/"
        else getenv "BASE_MAP_URL") ++ (sett.GetLanguage ++ "/")) = Except.ok base)
    (h1 : url.URLParse base (n ++ ".png") = Except.ok u1)
    (h2 : url.URLParse base (n ++ "_detailed.png") = Except.ok u2) :
    NewMapItem lower url getenv name sett
      = some (Except.ok
          { Name := n,
            MapImage := { Simple := url.URLString u1, Detailed := url.URLString u2 } }) := by
  rw [NewMapItem_of_some lower url getenv name n sett hn]
  simp only [hbase, h1, h2]

/-- Witness of C15 (amended): `BASE_MAP_URL` set to `https://maps.test/`, language `en`,
map `Polus`. -/
theorem newMapItem_urls_witness :
    NewMapItem (fun c => c) sampleUrlLib
        (fun v => if v = "BASE_MAP_URL" then "https://maps.test/" else "") "Polus"
        sampleSettings
      = some (Except.ok
          { Name := "polus",
            MapImage :=
              { Simple := "https://maps.test/en/polus.png",
                Detailed := "https://maps.test/en/polus_detailed.png" } }) :=
  newMapItem_urls (fun c => c) sampleUrlLib
    (fun v => if v = "BASE_MAP_URL" then "https://maps.test/" else "") "Polus" "polus"
    sampleSettings "https://maps.test/en/" "https://maps.test/en/polus.png"
    "https://maps.test/en/polus_detailed.png" rfl rfl rfl rfl

/-! ## Claim on the `map` command -/

theorem getD_last (a0 : String) (rest : List String) (hne : rest ≠ []) :
    (a0 :: rest).getD ((a0 :: rest).length - 1) "" = rest.getLast hne := by
  induction rest generalizing a0 with
  | nil => exact absurd rfl hne
  | cons r rs ih =>
    cases rs with
    | nil => rfl
    | cons r2 rs2 =>
      have h := ih r (by simp)
      simp only [List.length_cons, Nat.add_sub_cancel, List.getD_cons_succ] at h ⊢
      rw [List.getLast_cons (by simp)]
      exact h

theorem take_drop_middle (a0 : String) (rest : List String) (hne : rest ≠ []) :
    ((a0 :: rest).take ((a0 :: rest).length - 1)).drop 1 = rest.dropLast := by
  cases rest with
  | nil => exact absurd rfl hne
  | cons r rs =>
    simp only [List.length_cons, Nat.add_sub_cancel, List.take_succ_cons, List.drop_succ_cons,
      List.drop_zero]
    rw [List.dropLast_eq_take]
    simp

/-- C16: trailing-qualifier parsing of the map command.  With at least one argument after
the command token: if the last token is `simple` or `detailedMapString`, the name given to
`NewMapItem` is the space-join of the tokens strictly between the command token and the
last one, and the mode is the last token; otherwise the name is the space-join of all
tokens after the command token and the mode is the guild's stored map version.  On a
recognised map the payload is the `Simple` URL for mode `simple` and the `Detailed` URL
for mode `detailedMapString`; an unrecognised map gives the not-found message. -/
theorem mapCommand_trailing_qualifier {U : Type} (detailedMapString : String)
    (lower : Char → Char) (url : UrlLib U) (getenv : String → String) (ext : Externals)
    (sett : GuildSettings) (message : MessageCreate) (cmd : Command) (a0 : String)
    (rest : List String) (hne : rest ≠ []) :
    commandFnMap detailedMapString lower url getenv ext sett message (a0 :: rest) cmd =
      match NewMapItem lower url getenv
          (if rest.getLast hne = "simple" ∨ rest.getLast hne = detailedMapString then
            " ".intercalate rest.dropLast
          else " ".intercalate rest) sett with
      | none => none
      | some (Except.error err) =>
        some ⟨message.ChannelID, Payload.text (sett.LocalizeMessage msgMapNotFound []),
          [Call.logPrintln err]⟩
      | some (Except.ok mapItem) =>
        if (if rest.getLast hne = "simple" ∨ rest.getLast hne = detailedMapString then
              rest.getLast hne
            else sett.GetMapVersion) = "simple" then
          some ⟨message.ChannelID, Payload.text mapItem.MapImage.Simple, []⟩
        else if (if rest.getLast hne = "simple" ∨ rest.getLast hne = detailedMapString then
              rest.getLast hne
            else sett.GetMapVersion) = detailedMapString then
          some ⟨message.ChannelID, Payload.text mapItem.MapImage.Detailed, []⟩
        else
          some ⟨"", Payload.nil,
            [Call.logPrintln "mapVersion has unexpected value for 'map' command"]⟩ := by
  cases rest with
  | nil => exact absurd rfl hne
  | cons r rs =>
    have hlast := getD_last a0 (r :: rs) hne
    have hmid := take_drop_middle a0 (r :: rs) hne
    simp only [commandFnMap, hlast, hmid, List.drop_succ_cons, List.drop_zero, Bool.or_eq_true,
      beq_iff_eq]
    by_cases hq : (r :: rs).getLast hne = "simple" ∨ (r :: rs).getLast hne = detailedMapString
    · simp only [if_pos hq]
    · simp only [if_neg hq]

/-- Witness of C16: `map mira hq detailed` asks for the map `mira hq` in detailed mode. -/
theorem mapCommand_trailing_qualifier_witness :
    commandFnMap "detailed" (fun c => c) sampleUrlLib (fun _ => "") sampleExternals
        sampleSettings sampleMessage ["map", "mira", "hq", "detailed"] zeroCommand
      = some ⟨"c1",
          Payload.text
            "https://github.com/automuteus/automuteus/blob/master/assets/maps/en/mira_hq_detailed.png",
          []⟩ :=
  (mapCommand_trailing_qualifier "detailed" (fun c => c) sampleUrlLib (fun _ => "")
    sampleExternals sampleSettings sampleMessage zeroCommand "map" ["mira", "hq", "detailed"]
    (by decide)).trans rfl

/-! ## Claims on the settings -/

theorem toLower_eq_asciiLower (lower : Char → Char) (s : String)
    (h : s.data.all (fun c => decide (c.toNat < 128)) = true) :
    toLower lower s = asciiLower s := by
  obtain ⟨l⟩ := s
  simp only [toLower, asciiLower]
  congr 1
  simp only [List.all_eq_true, decide_eq_true_eq] at h
  apply List.map_congr_left
  intro c hc
  rw [if_pos (h c hc)]

theorem allSettingKeys_ascii :
    ∀ k ∈ allSettingKeys AllSettings, k.data.all (fun c => decide (c.toNat < 128)) = true := by
  decide

theorem mem_allSettingKeys (s : Setting) (hs : s ∈ AllSettings) (k : String)
    (hk : k ∈ settingKeys s) : k ∈ allSettingKeys AllSettings := by
  simp only [allSettingKeys, List.mem_flatMap]
  exact ⟨s, hs, hk⟩

set_option maxRecDepth 100000 in
theorem allSettings_pairwise_ascii :
    AllSettings.Pairwise (fun s1 s2 =>
      ∀ k1 ∈ settingKeys s1, ∀ k2 ∈ settingKeys s2, asciiLower k1 ≠ asciiLower k2) := by
  decide

/-- C17 does not hold of the code: the card of the premium setting `matchSummary` has the
bare name as its title.  `ConstructEmbedForSetting` computes a title with the marker and
then sets `Title` to `setting.Name`, so the title of every card is the bare name. -/
theorem premium_marker_not_in_title :
    (AllSettings[8]?.map fun s =>
        (s.Name, s.Premium, (ConstructEmbedForSetting "5" s sampleSettings).map fun e => e.Title))
      = some ("matchSummary", true, some "matchSummary")
    ∧ ∀ (value : String) (setting : Setting) (sett : GuildSettings),
        ((ConstructEmbedForSetting value setting sett).map fun e => e.Title)
          = (ConstructEmbedForSetting value setting sett).map fun _ => setting.Name := by
  refine ⟨by decide, fun value setting sett => ?_⟩
  unfold ConstructEmbedForSetting
  cases setting.Description <;> cases setting.Arguments <;> rfl

/-- C18 does not hold of the table: the key sequence of `AllSettings` lists `delays` twice
and `displayRoomCode` twice (each is its own alias), and lists both `leaderboardMin` and
`leaderboardmin`, which are equal ignoring case; so the sequence has duplicates, exactly
and ignoring case. -/
theorem setting_keys_have_duplicates :
    (AllSettings[5]?.map settingKeys) = some ["delays", "delays", "d"]
    ∧ (AllSettings[15]?.map settingKeys)
        = some ["displayRoomCode", "displayRoomCode", "roomcode", "code", "rc"]
    ∧ (AllSettings[13]?.map settingKeys)
        = some ["leaderboardMin", "leaderboardmin", "lboardmin", "boardmin", "leadermin", "min"]
    ∧ (allSettingKeys AllSettings).count "delays" = 2
    ∧ (allSettingKeys AllSettings).count "displayRoomCode" = 2
    ∧ ((allSettingKeys AllSettings).map asciiLower).count "leaderboardmin" = 2
    ∧ ¬ (allSettingKeys AllSettings).Nodup
    ∧ ∀ lower : Char → Char, ¬ ((allSettingKeys AllSettings).map (toLower lower)).Nodup := by
  refine ⟨by decide, by decide, by decide, by decide, by decide, by decide, by decide, ?_⟩
  intro lower
  have hmap : (allSettingKeys AllSettings).map (toLower lower)
      = (allSettingKeys AllSettings).map asciiLower :=
    List.map_congr_left fun k hk =>
      toLower_eq_asciiLower lower k (allSettingKeys_ascii k hk)
  rw [hmap]
  decide

/-- C19: no setting key is shared by two settings.  For two distinct entries of
`AllSettings`, no name or alias of one equals, ignoring letter case, a name or alias of
the other; hence a token matches the keys of at most one setting. -/
theorem setting_keys_not_shared (lower : Char → Char) :
    AllSettings.Pairwise (fun s1 s2 =>
        ∀ k1 ∈ settingKeys s1, ∀ k2 ∈ settingKeys s2, toLower lower k1 ≠ toLower lower k2)
    ∧ (∀ s1 ∈ AllSettings, ∀ s2 ∈ AllSettings, s1 ≠ s2 →
        ∀ k1 ∈ settingKeys s1, ∀ k2 ∈ settingKeys s2, toLower lower k1 ≠ toLower lower k2)
    ∧ (∀ t : String, ∀ s1 ∈ AllSettings, ∀ s2 ∈ AllSettings,
        (∃ k ∈ settingKeys s1, toLower lower k = toLower lower t) →
        (∃ k ∈ settingKeys s2, toLower lower k = toLower lower t) → s1 = s2) := by
  have hpair : AllSettings.Pairwise (fun s1 s2 =>
      ∀ k1 ∈ settingKeys s1, ∀ k2 ∈ settingKeys s2,
        toLower lower k1 ≠ toLower lower k2) := by
    refine List.Pairwise.imp_of_mem ?_ allSettings_pairwise_ascii
    intro s1 s2 h1 h2 h k1 hk1 k2 hk2
    rw [toLower_eq_asciiLower lower k1 (allSettingKeys_ascii k1 (mem_allSettingKeys s1 h1 k1 hk1)),
      toLower_eq_asciiLower lower k2 (allSettingKeys_ascii k2 (mem_allSettingKeys s2 h2 k2 hk2))]
    exact h k1 hk1 k2 hk2
  have hall : ∀ s1 ∈ AllSettings, ∀ s2 ∈ AllSettings, s1 ≠ s2 →
      ∀ k1 ∈ settingKeys s1, ∀ k2 ∈ settingKeys s2,
        toLower lower k1 ≠ toLower lower k2 := by
    apply List.Pairwise.forall _ hpair
    intro s1 s2 h k1 hk1 k2 hk2 e
    exact h k2 hk2 k1 hk1 e.symm
  refine ⟨hpair, hall, ?_⟩
  intro t s1 h1 s2 h2 ⟨k1, hk1, e1⟩ ⟨k2, hk2, e2⟩
  by_contra hne
  exact hall s1 h1 s2 h2 hne k1 hk1 k2 hk2 (e1.trans e2.symm)

/-- Witness of C19: the alias `l` of `language` and the alias `lboardmin` of
`leaderboardMin` differ, also ignoring case. -/
theorem setting_keys_not_shared_witness :
    toLower (fun c => c) "l" ≠ toLower (fun c => c) "lboardmin" :=
  (setting_keys_not_shared (fun c => c)).2.1
    (AllSettings.get ⟨1, by decide⟩) (List.get_mem _ _ _)
    (AllSettings.get ⟨13, by decide⟩) (List.get_mem _ _ _)
    (by decide) "l" (by decide) "lboardmin" (by decide)

/-! ## Claim on malformed mentions -/

/-- When the first argument is not a mention, `commandFnUnlink` logs the error and returns
`("", nil)`, whatever the collaborators. -/
theorem commandFnUnlink_bad_mention {D L G : Type} (ext : Externals) (bot : SessionBot D L G)
    (sett : GuildSettings) (message : MessageCreate) (cmd : Command) (a0 a1 : String)
    (rest : List String) (err : String) (herr : (ext.ExtractUserIDFromMention a1).2 = some err) :
    commandFnUnlink ext bot sett message (a0 :: a1 :: rest) cmd
      = some ⟨"", Payload.nil, [SessionCall.logPrintln err]⟩ := by
  simp only [commandFnUnlink, herr]

/-- When the first argument is not a mention, `commandFnCache` logs the error and answers
in the channel of the command. -/
theorem commandFnCache_bad_mention {D L G : Type} (lower : Char → Char)
    (clearArgumentString : String) (ext : Externals) (bot : SessionBot D L G)
    (sett : GuildSettings) (message : MessageCreate) (cmd : Command) (a0 a1 : String)
    (rest : List String) (err : String) (herr : (ext.ExtractUserIDFromMention a1).2 = some err) :
    commandFnCache lower clearArgumentString ext bot sett message (a0 :: a1 :: rest) cmd
      = some ⟨message.ChannelID, Payload.text "I couldn't find a user by that name or ID!",
          [SessionCall.logPrintln err]⟩ := by
  simp only [commandFnCache, herr]

/-- C20 does not hold of `commandFnUnlink`: on `unlink soup`, where `soup` is not a
mention, the handler only logs the error and returns the empty channel and a `nil`
payload, so the user sees nothing.  `commandFnCache` on `cache soup` does answer in the
channel of the command.  Neither acquires a lock or makes a mutating call. -/
theorem unlink_swallows_bad_mention :
    commandFnUnlink sampleExternals sampleSessionBot sampleSettings sampleMessage
        ["unlink", "soup"] zeroCommand
      = some ⟨"", Payload.nil,
          [SessionCall.logPrintln "mention does not conform to the correct format"]⟩
    ∧ commandFnCache (fun c => c) "clear" sampleExternals sampleSessionBot sampleSettings
        sampleMessage ["cache", "soup"] zeroCommand
      = some ⟨"c1", Payload.text "I couldn't find a user by that name or ID!",
          [SessionCall.logPrintln "mention does not conform to the correct format"]⟩
    ∧ acquisitions
        ([SessionCall.logPrintln "mention does not conform to the correct format"] :
          List (SessionCall Unit Nat Unit)) = []
    ∧ mutations
        ([SessionCall.logPrintln "mention does not conform to the correct format"] :
          List (SessionCall Unit Nat Unit)) = [] := by
  exact ⟨by decide, by decide, by decide, by decide⟩

/-! ## Claim on the permission gate -/

/-- C21: permission gate rule table.  `authorize` is true exactly when the entry's
required tier is none, or the tier is operator and `callerIsPermissioned` is true, or the
tier is admin and `callerIsAdmin` is true, whatever the entry and the caller flags; the
flag `IsSecret` of the entry does not change the result. -/
theorem authorize_rule_table (entry : Command) (callerIsAdmin callerIsPermissioned : Bool) :
    (authorize entry callerIsAdmin callerIsPermissioned = true ↔
        requiredTier entry = Tier.none
        ∨ (requiredTier entry = Tier.operator ∧ callerIsPermissioned = true)
        ∨ (requiredTier entry = Tier.admin ∧ callerIsAdmin = true))
    ∧ (∀ secret : Bool,
        authorize { entry with IsSecret := secret } callerIsAdmin callerIsPermissioned
          = authorize entry callerIsAdmin callerIsPermissioned)
    ∧ (∀ secret : Bool, requiredTier { entry with IsSecret := secret } = requiredTier entry) := by
  refine ⟨?_, fun secret => rfl, fun secret => rfl⟩
  unfold authorize
  cases h : requiredTier entry <;> simp

/-! ## Claim on `commandFnPause` -/

/-- C22: pause is a toggle that unmutes when pausing.  When `commandFnPause` obtains the
lock, the one state it writes back is the state it read with `Running` negated, and
`applyToAll(state, false, false)` is called, once and on that state, exactly when the new
`Running` flag is false.  A second pause that reads the state written by the first writes
back the state the first one read, so the original flag is restored. -/
theorem pause_toggles_running {D L G : Type} (bot : SessionBot D L G) (sett : GuildSettings)
    (message : MessageCreate) (lock : L)
    (hlock : (bot.RedisInterface.GetDiscordGameStateAndLock
      ⟨message.GuildID, message.ChannelID⟩).1 = some lock) :
    writtenBack (commandFnPause bot sett message).calls
        = [{ (bot.RedisInterface.GetDiscordGameStateAndLock
                ⟨message.GuildID, message.ChannelID⟩).2 with
              Running := !(bot.RedisInterface.GetDiscordGameStateAndLock
                ⟨message.GuildID, message.ChannelID⟩).2.Running }]
    ∧ (∀ written ∈ writtenBack (commandFnPause bot sett message).calls,
        written.Running = !(bot.RedisInterface.GetDiscordGameStateAndLock
          ⟨message.GuildID, message.ChannelID⟩).2.Running)
    ∧ applyToAllCalls (commandFnPause bot sett message).calls
        = (if (!(bot.RedisInterface.GetDiscordGameStateAndLock
                ⟨message.GuildID, message.ChannelID⟩).2.Running) = false then
            [SessionCall.applyToAll
              { (bot.RedisInterface.GetDiscordGameStateAndLock
                  ⟨message.GuildID, message.ChannelID⟩).2 with
                Running := !(bot.RedisInterface.GetDiscordGameStateAndLock
                  ⟨message.GuildID, message.ChannelID⟩).2.Running } false false]
          else [])
    ∧ (∀ (bot2 : SessionBot D L G) (lock2 : L),
        bot2.RedisInterface.GetDiscordGameStateAndLock ⟨message.GuildID, message.ChannelID⟩
          = (some lock2,
              { (bot.RedisInterface.GetDiscordGameStateAndLock
                  ⟨message.GuildID, message.ChannelID⟩).2 with
                Running := !(bot.RedisInterface.GetDiscordGameStateAndLock
                  ⟨message.GuildID, message.ChannelID⟩).2.Running }) →
        writtenBack (commandFnPause bot2 sett message).calls
          = [(bot.RedisInterface.GetDiscordGameStateAndLock
              ⟨message.GuildID, message.ChannelID⟩).2]) := by
  have hrun : ∀ (b : SessionBot D L G) (l : L),
      (b.RedisInterface.GetDiscordGameStateAndLock
        ⟨message.GuildID, message.ChannelID⟩).1 = some l →
      writtenBack (commandFnPause b sett message).calls
        = [{ (b.RedisInterface.GetDiscordGameStateAndLock
                ⟨message.GuildID, message.ChannelID⟩).2 with
              Running := !(b.RedisInterface.GetDiscordGameStateAndLock
                ⟨message.GuildID, message.ChannelID⟩).2.Running }] := by
    intro b l h
    simp only [commandFnPause, h]
    split <;> rfl
  refine ⟨hrun bot lock hlock, ?_, ?_, ?_⟩
  · intro written hw
    rw [hrun bot lock hlock, List.mem_singleton] at hw
    rw [hw]
  · simp only [commandFnPause, hlock]
    cases (bot.RedisInterface.GetDiscordGameStateAndLock
      ⟨message.GuildID, message.ChannelID⟩).2.Running <;> rfl
  · intro bot2 lock2 h2
    rw [hrun bot2 lock2 (by rw [h2]), h2]
    simp

/-- Witness of C22 on the sample bot, whose state is not running: the pause writes back a
running state and calls no `applyToAll`. -/
theorem pause_toggles_running_witness :
    writtenBack (commandFnPause sampleSessionBot sampleSettings sampleMessage).calls
        = [{ Running := true, ConnectCode := "ABCDEFGH", data := () }]
    ∧ applyToAllCalls (commandFnPause sampleSessionBot sampleSettings sampleMessage).calls
        = [] :=
  have h := pause_toggles_running sampleSessionBot sampleSettings sampleMessage 1 rfl
  ⟨h.1, h.2.2.1⟩

/-! ## Claim on the exact condition for a stats deletion -/

/-- Tokens after the fourth do not reach `commandFnStats`. -/
theorem commandFnStats_ignores_tail (ext : Externals) (bot : Bot) (isAdmin : Bool)
    (sett : GuildSettings) (message : MessageCreate) (cmd : Command) (a0 a1 a2 a3 : String)
    (rest : List String) :
    commandFnStats ext bot isAdmin sett message (a0 :: a1 :: a2 :: a3 :: rest) cmd
      = commandFnStats ext bot isAdmin sett message [a0, a1, a2, a3] cmd := by
  simp [commandFnStats]

/-- Without `reset` as third token, `commandFnStats` deletes nothing. -/
theorem commandFnStats_no_reset (ext : Externals) (bot : Bot) (isAdmin : Bool)
    (sett : GuildSettings) (message : MessageCreate) (cmd : Command) (args : List String)
    (h : ¬ (2 < args.length ∧ args.getD 2 "" = "reset")) :
    ∀ out, commandFnStats ext bot isAdmin sett message args cmd = some out →
      deletions out.calls = [] := by
  intro out hout
  have h' : (decide (args.length > 2) && args.getD 2 "" == "reset") = false := by
    cases hd : (decide (args.length > 2) && args.getD 2 "" == "reset")
    · rfl
    · simp only [Bool.and_eq_true, decide_eq_true_eq, beq_iff_eq] at hd
      exact absurd hd h
  unfold commandFnStats at hout
  split at hout
  · exact absurd hout (by simp)
  · cases hout; rfl
  · simp only [h'] at hout
    split at hout
    · split at hout
      · simp at hout; cases hout; rfl
      · split at hout
        · split at hout <;> (cases hout; rfl)
        · cases hout; rfl
    · simp at hout; cases hout; rfl

/-- With a second token that is neither a mention nor a guild keyword, `commandFnStats`
deletes nothing. -/
theorem commandFnStats_no_target (ext : Externals) (bot : Bot) (isAdmin : Bool)
    (sett : GuildSettings) (message : MessageCreate) (cmd : Command) (a0 a1 : String)
    (rest : List String) (hv : validMention ext a1 = false)
    (hg : isGuildKeyword (removeQuotes a1) = false) :
    ∀ out, commandFnStats ext bot isAdmin sett message (a0 :: a1 :: rest) cmd = some out →
      deletions out.calls = [] := by
  intro out hout
  simp only [validMention, Bool.not_eq_false'] at hv
  simp only [isGuildKeyword] at hg
  simp only [commandFnStats, hv, hg, Bool.false_eq_true, if_true, if_false] at hout
  by_cases hm : ext.MatchIDRegex (toUpper ext.upper (removeQuotes a1)) = true
  · simp only [hm, if_true] at hout
    split at hout <;> (cases hout; rfl)
  · simp only [hm, Bool.false_eq_true, if_false] at hout
    cases hout; rfl

/-- The shape of an argument list whose third token is `reset`. -/
theorem args_of_reset (args : List String) (h : 2 < args.length ∧ args.getD 2 "" = "reset") :
    ∃ a0 a1 rest, args = a0 :: a1 :: "reset" :: rest := by
  obtain ⟨hl, h2⟩ := h
  match args, hl, h2 with
  | a0 :: a1 :: a2 :: rest, _, h2 =>
    simp only [List.getD_cons_succ, List.getD_cons_zero] at h2
    exact ⟨a0, a1, rest, by rw [h2]⟩

/-- C23, as stated, fails in its only-if part: the code removes every double quote from
the second token before comparing it with the guild keywords.  For an admin,
`stats g"ui"ld reset confirm` deletes the guild's games, although the token `g"ui"ld` is
not a mention and is none of `g`, `guild`, `server`, `"g"`, `"guild"`, `"server"`. -/
theorem stats_deletion_quotes_anywhere_counterexample :
    commandFnStats sampleExternals sampleBot true sampleSettings sampleMessage
        ["stats", "g\"ui\"ld", "reset", "confirm"] zeroCommand
      = some ⟨"c1", Payload.text "Successfully reset your guild's stats!",
          [Call.GetGuildPremiumStatus "g1", Call.DeleteAllGamesForServer "g1"]⟩
    ∧ validMention sampleExternals "g\"ui\"ld" = false
    ∧ "g\"ui\"ld" ∉ ["g", "guild", "server", "\"g\"", "\"guild\"", "\"server\""]
    ∧ removeQuotes "g\"ui\"ld" = "guild" := by
  exact ⟨by decide, by decide, by decide, by decide⟩

/-- C23, amended: exact condition for a stats deletion.  `commandFnStats` invokes a
deletion if and only if `isAdmin` is true, the list has at least four tokens, the third
token is `reset`, the fourth is `confirm`, and the second token is a valid user mention
or, once every double quote is removed from it, one of the guild keywords `g`, `guild`,
`server`; the deletion is then the only one.  Tokens after the fourth are ignored, and for
an admin with `reset` on such a target a fourth token other than `confirm` gives the `nil`
payload, not the prompt. -/
theorem stats_deletion_exact_condition (ext : Externals) (bot : Bot) (isAdmin : Bool)
    (sett : GuildSettings) (message : MessageCreate) (cmd : Command) (args : List String) :
    ((∃ out, commandFnStats ext bot isAdmin sett message args cmd = some out
          ∧ deletions out.calls ≠ [])
      ↔ (isAdmin = true ∧ 4 ≤ args.length ∧ args.getD 2 "" = "reset"
          ∧ args.getD 3 "" = "confirm"
          ∧ (validMention ext (args.getD 1 "") = true
              ∨ isGuildKeyword (removeQuotes (args.getD 1 "")) = true)))
    ∧ (∀ out, commandFnStats ext bot isAdmin sett message args cmd = some out →
        deletions out.calls = []
        ∨ deletions out.calls = [Call.DeleteAllGamesForServer message.GuildID]
        ∨ deletions out.calls
            = [Call.DeleteAllGamesForUser (ext.ExtractUserIDFromMention (args.getD 1 "")).1])
    ∧ (∀ a0 a1 a2 a3 rest,
        commandFnStats ext bot isAdmin sett message (a0 :: a1 :: a2 :: a3 :: rest) cmd
          = commandFnStats ext bot isAdmin sett message [a0, a1, a2, a3] cmd)
    ∧ (∀ a0 a1 a3 rest, a3 ≠ "confirm" →
        (validMention ext a1 = true ∨ isGuildKeyword (removeQuotes a1) = true) →
        commandFnStats ext bot true sett message (a0 :: a1 :: "reset" :: a3 :: rest) cmd
          = some ⟨message.ChannelID, Payload.nil,
              [Call.GetGuildPremiumStatus message.GuildID]⟩)
    ∧ isGuildKeyword (removeQuotes "g") = true
    ∧ isGuildKeyword (removeQuotes "guild") = true
    ∧ isGuildKeyword (removeQuotes "server") = true
    ∧ isGuildKeyword (removeQuotes "\"g\"") = true
    ∧ isGuildKeyword (removeQuotes "\"guild\"") = true
    ∧ isGuildKeyword (removeQuotes "\"server\"") = true := by
  -- the deletions of a run on `a0 :: a1 :: "reset" :: rest` with a target
  have hreset : ∀ (a0 a1 : String) (rest : List String),
      (validMention ext a1 = true ∨ isGuildKeyword (removeQuotes a1) = true) →
      ∃ out, commandFnStats ext bot isAdmin sett message (a0 :: a1 :: "reset" :: rest) cmd
          = some out
        ∧ deletions out.calls =
            if isAdmin = true ∧ rest.head? = some "confirm" then
              (if validMention ext a1 = true then
                [Call.DeleteAllGamesForUser (ext.ExtractUserIDFromMention a1).1]
              else [Call.DeleteAllGamesForServer message.GuildID])
            else [] := by
    intro a0 a1 rest htarget
    by_cases hv : validMention ext a1 = true
    · rw [commandFnStats_user_reset ext bot isAdmin sett message cmd a0 a1 rest hv]
      cases isAdmin
      · exact ⟨_, rfl, by simp [deletions]⟩
      · cases rest with
        | nil => exact ⟨_, rfl, by simp [deletions]⟩
        | cons a3 rest' =>
          by_cases h3 : a3 = "confirm"
          · subst h3
            cases bot.PostgresInterface.DeleteAllGamesForUser
              (ext.ExtractUserIDFromMention a1).1 <;>
              exact ⟨_, rfl, by simp [deletions, hv]⟩
          · refine ⟨⟨message.ChannelID, Payload.nil,
              [Call.GetGuildPremiumStatus message.GuildID]⟩, ?_, by simp [deletions, h3]⟩
            simp only [Bool.not_true, if_neg h3]
            rfl
    · have hv' : validMention ext a1 = false := by simpa using hv
      have hg : isGuildKeyword (removeQuotes a1) = true := by
        rcases htarget with h | h
        · exact absurd h hv
        · exact h
      rw [commandFnStats_guild_reset ext bot isAdmin sett message cmd a0 a1 rest hv' hg]
      cases isAdmin
      · exact ⟨_, rfl, by simp [deletions]⟩
      · cases rest with
        | nil => exact ⟨_, rfl, by simp [deletions]⟩
        | cons a3 rest' =>
          by_cases h3 : a3 = "confirm"
          · subst h3
            cases bot.PostgresInterface.DeleteAllGamesForServer message.GuildID <;>
              exact ⟨_, rfl, by simp [deletions, hv']⟩
          · refine ⟨⟨message.ChannelID, Payload.nil,
              [Call.GetGuildPremiumStatus message.GuildID]⟩, ?_, by simp [deletions, h3]⟩
            simp only [Bool.not_true, if_neg h3]
            rfl
  -- the deletions of any run
  have hall : ∀ out, commandFnStats ext bot isAdmin sett message args cmd = some out →
      deletions out.calls =
        if isAdmin = true ∧ 4 ≤ args.length ∧ args.getD 2 "" = "reset"
            ∧ args.getD 3 "" = "confirm"
            ∧ (validMention ext (args.getD 1 "") = true
                ∨ isGuildKeyword (removeQuotes (args.getD 1 "")) = true) then
          (if validMention ext (args.getD 1 "") = true then
            [Call.DeleteAllGamesForUser (ext.ExtractUserIDFromMention (args.getD 1 "")).1]
          else [Call.DeleteAllGamesForServer message.GuildID])
        else [] := by
    intro out hout
    by_cases hr : 2 < args.length ∧ args.getD 2 "" = "reset"
    · obtain ⟨a0, a1, rest, rfl⟩ := args_of_reset args hr
      by_cases htarget : validMention ext a1 = true ∨ isGuildKeyword (removeQuotes a1) = true
      · obtain ⟨out', hrun, hdel⟩ := hreset a0 a1 rest htarget
        rw [hrun] at hout
        cases hout
        rw [hdel]
        cases rest with
        | nil => simp
        | cons a3 rest' =>
          simp only [List.head?_cons, Option.some.injEq, List.length_cons, List.getD_cons_succ,
            List.getD_cons_zero, htarget, and_true, true_and]
          have h4 : 4 ≤ rest'.length + 1 + 1 + 1 + 1 := by omega
          simp only [h4, true_and]
      · have hv : validMention ext a1 = false := by
          cases h : validMention ext a1
          · rfl
          · exact absurd (Or.inl h) htarget
        have hg : isGuildKeyword (removeQuotes a1) = false := by
          cases h : isGuildKeyword (removeQuotes a1)
          · rfl
          · exact absurd (Or.inr h) htarget
        rw [commandFnStats_no_target ext bot isAdmin sett message cmd a0 a1 _ hv hg out hout]
        have : ¬ (validMention ext ((a0 :: a1 :: "reset" :: rest).getD 1 "") = true
            ∨ isGuildKeyword (removeQuotes ((a0 :: a1 :: "reset" :: rest).getD 1 "")) = true) :=
          htarget
        simp only [this, and_false, if_false]
    · rw [commandFnStats_no_reset ext bot isAdmin sett message cmd args hr out hout]
      have : ¬ (isAdmin = true ∧ 4 ≤ args.length ∧ args.getD 2 "" = "reset"
          ∧ args.getD 3 "" = "confirm"
          ∧ (validMention ext (args.getD 1 "") = true
              ∨ isGuildKeyword (removeQuotes (args.getD 1 "")) = true)) := by
        rintro ⟨_, h4, h2, _⟩
        exact hr ⟨by omega, h2⟩
      rw [if_neg this]
  refine ⟨⟨?_, ?_⟩, ?_, ?_, ?_, by decide, by decide, by decide, by decide, by decide,
    by decide⟩
  · rintro ⟨out, hout, hdel⟩
    by_contra hcond
    rw [hall out hout, if_neg hcond] at hdel
    exact hdel rfl
  · intro hcond
    obtain ⟨a0, a1, rest, rfl⟩ := args_of_reset args ⟨by omega, hcond.2.2.1⟩
    obtain ⟨out, hrun, _⟩ := hreset a0 a1 rest hcond.2.2.2.2
    refine ⟨out, hrun, ?_⟩
    rw [hall out hrun, if_pos hcond]
    split <;> simp
  · intro out hout
    rw [hall out hout]
    split
    · split
      · exact Or.inr (Or.inr rfl)
      · exact Or.inr (Or.inl rfl)
    · exact Or.inl rfl
  · intro a0 a1 a2 a3 rest
    exact commandFnStats_ignores_tail ext bot isAdmin sett message cmd a0 a1 a2 a3 rest
  · intro a0 a1 a3 rest h3 htarget
    by_cases hv : validMention ext a1 = true
    · rw [commandFnStats_user_reset ext bot true sett message cmd a0 a1 _ hv]
      simp only [Bool.not_true, if_neg h3]
      rfl
    · have hv' : validMention ext a1 = false := by simpa using hv
      have hg : isGuildKeyword (removeQuotes a1) = true := by
        rcases htarget with h | h
        · exact absurd h hv
        · exact h
      rw [commandFnStats_guild_reset ext bot true sett message cmd a0 a1 _ hv' hg]
      simp only [Bool.not_true, if_neg h3]
      rfl

/-- Witness of C23 (amended): for an admin, `stats "guild" reset nope confirm` returns the `nil`
payload and deletes nothing, and `stats <@!42> reset confirm now` invokes a deletion. -/
theorem stats_deletion_exact_condition_witness :
    commandFnStats sampleExternals sampleBot true sampleSettings sampleMessage
        ["stats", "\"guild\"", "reset", "nope", "confirm"] zeroCommand
      = some ⟨sampleMessage.ChannelID, Payload.nil,
          [Call.GetGuildPremiumStatus sampleMessage.GuildID]⟩
    ∧ ∃ out, commandFnStats sampleExternals sampleBot true sampleSettings sampleMessage
          ["stats", "<@!42>", "reset", "confirm", "now"] zeroCommand = some out
        ∧ deletions out.calls ≠ [] :=
  ⟨(stats_deletion_exact_condition sampleExternals sampleBot true sampleSettings
      sampleMessage zeroCommand []).2.2.2.1 "stats" "\"guild\"" "nope" ["confirm"]
      (by decide) (Or.inr (by decide)),
    (stats_deletion_exact_condition sampleExternals sampleBot true sampleSettings
      sampleMessage zeroCommand ["stats", "<@!42>", "reset", "confirm", "now"]).1.2
      ⟨rfl, by decide, by decide, by decide, Or.inl (by decide)⟩⟩

end Automuteus
